import Mathlib

set_option maxHeartbeats 4000000
set_option maxRecDepth 20000

/-!
Shallow embedding of `src/hltex/translator.py` (the hltex source-to-source
translator) and proofs about the claims of its specification.

The translator state (`St`) mirrors the Python `Translator` object; parsing
functions are modelled as functions `St → Res α`, where `Res` carries either a
result together with the updated state, or an exception together with the state
at the point where it was raised.  `Err.trans` corresponds to Python's
`TranslationError`; `Err.internal` to plain `Exception`s (including `NameError`
and `TypeError` raised by the Python code on some paths); `Err.idx` to
`IndexError`; `Err.assertFail` to a failed `assert`; `Err.fuel` is a modelling
artefact for the explicit recursion fuel (the Python recursion is unbounded).
Strings are modelled as `List Char`.
-/

/-- Convert a string literal to the character-list representation used throughout. -/
def s2l (s : String) : List Char := s.toList

/-- Python helper `isnewline` from translator.py. -/
def isnewline (c : Char) : Bool := decide (c = '\n')

/-- Python `str.isspace`, restricted to the ASCII whitespace characters
(the inputs in this development are ASCII). -/
def isspacePy (c : Char) : Bool :=
  decide (c = ' ' ∨ c = '\t' ∨ c = '\n' ∨ c = '\r' ∨ c = '\x0b' ∨ c = '\x0c')

/-- Python helper `iswhitespace`: whitespace that is not a newline. -/
def iswhitespace (c : Char) : Bool := isspacePy c && !(isnewline c)

/-- Left brace character (written via its code point). -/
def lbraceC : Char := '\x7b'

/-- Right brace character (written via its code point). -/
def rbraceC : Char := '\x7d'

/-- Character of `l` at index `i` (Python `l[i]`); call sites either guard the
index or model the out-of-bounds `IndexError` explicitly. -/
def charAtD (l : List Char) (i : Nat) : Char := l.getD i '\x00'

/-- Python slice notation on lists. -/
def sliceL (l : List Char) (a b : Nat) : List Char := (l.take b).drop a

/-- Python string repetition `u * n`. -/
def mulList (u : List Char) : Nat → List Char
  | 0 => []
  | n + 1 => u ++ mulList u n

/-- Index just past the characters satisfying `p`, scanning the list `l`,
which is the suffix of the text starting at absolute position `i`. -/
def scanWhile (p : Char → Bool) : List Char → Nat → Nat
  | [], i => i
  | c :: rest, i => if p c then scanWhile p rest (i + 1) else i

/-- First absolute index at or after `i` whose character satisfies `p`, where
`l` is the suffix of the text starting at absolute position `i` (Python
`str.find` with its `-1` failure modelled as `none`). -/
def findFrom (p : Char → Bool) : List Char → Nat → Option Nat
  | [], _ => none
  | c :: rest, i => if p c then some i else findFrom p rest (i + 1)

/-- Mutable state of the Python `Translator` object. -/
structure St where
  indent_str : Option (List Char)
  indent_level : Int
  pos : Nat
  text : List Char
  preamble : Bool
deriving DecidableEq, Repr

/-- Exceptions of the Python program (see module comment). -/
inductive Err where
  | trans : List Char → Err
  | internal : List Char → Err
  | idx : Err
  | assertFail : Err
  | fuel : Err
deriving DecidableEq, Repr

/-- Outcome of a stateful parsing operation: a value or an exception, with the
state at the corresponding moment. -/
inductive Res (α : Type) where
  | ok : α → St → Res α
  | err : Err → St → Res α
deriving DecidableEq, Repr

/-- State carried by an outcome, whether successful or not. -/
def Res.after {α : Type} : Res α → St
  | .ok _ s => s
  | .err _ s => s

/-- Python `Translator.parse_while`. -/
def parse_while (p : Char → Bool) (s : St) : St :=
  { s with pos := scanWhile p (s.text.drop s.pos) s.pos }

/-- Python `Translator.parse_until`. -/
def parse_until (p : Char → Bool) (s : St) : St :=
  parse_while (fun c => !(p c)) s

/-- Loop body of Python `Translator.parse_empty`; the fuel argument is a
modelling artefact (each iteration advances `pos`, and the wrapper supplies
enough fuel for any input). -/
def parse_emptyAux : Nat → St → St
  | 0, s => s
  | n + 1, s =>
    if s.pos < s.text.length then
      let line_end := (findFrom isnewline (s.text.drop s.pos) s.pos).getD (s.text.length - 1)
      let seg := sliceL s.text s.pos (line_end + 1)
      if seg ≠ [] ∧ seg.all isspacePy then
        parse_emptyAux n { s with pos := line_end + 1 }
      else s
    else s

/-- Python `Translator.parse_empty`. -/
def parse_empty (s : St) : St := parse_emptyAux (s.text.length + 1) s

/-- Python `Translator.parse_comments`. -/
def parse_comments (s : St) : St := parse_empty (parse_until isnewline s)

/-- Python `Translator.parse_control_seq`: returns the command name and the
updated state. -/
def parse_control_seq (s : St) : List Char × St :=
  let control_start := s.pos
  let s1 := parse_while Char.isAlpha s
  let s2 := if s1.pos = control_start then { s1 with pos := s1.pos + 1 } else s1
  (sliceL s2.text control_start s2.pos, s2)

/-- Python `Translator.validate_indent`. -/
def validate_indent (indent : List Char) (s : St) : Res Unit :=
  if indent.all (fun c => decide (c = ' ')) ∨ indent.all (fun c => decide (c = '\t')) then
    .ok () s
  else
    .err (.trans (s2l "Invalid indentation; must be all spaces or all tabs")) s

/-- Python `Translator.level_of_indent`; reading `len(self.indent_str)` with
`indent_str is None` would be a Python `TypeError`, modelled as `Err.internal`. -/
def level_of_indent (indent : List Char) (validate : Bool) (s : St) : Res Nat :=
  match s.indent_str with
  | none => .err (.internal (s2l "TypeError: indent_str is None")) s
  | some u =>
    if validate = true ∧ ¬(indent.length % u.length = 0) then
      .err (.trans (s2l "Indentation must be in multiples of the base indentation `" ++
        u ++ s2l "`")) s
    else
      .ok (indent.length / u.length) s

/-- Python `Translator.calc_indent_level`. -/
def calc_indent_level (validate : Bool) (s : St) : Res Nat :=
  if validate = true ∧
      ¬(s.pos = 0 ∨ s.pos = s.text.length ∨ charAtD s.text (s.pos - 1) = '\n') then
    .err .assertFail s
  else
    let indent_start := s.pos
    let s1 := parse_while iswhitespace s
    let indent := sliceL s1.text indent_start s1.pos
    if indent.length = 0 then .ok 0 s1
    else
      match (if validate then validate_indent indent s1 else .ok () s1) with
      | .err e s2 => .err e s2
      | .ok _ s2 =>
        let s3 := if s2.indent_str = none then { s2 with indent_str := some indent } else s2
        match level_of_indent indent validate s3 with
        | .err e s4 => .err e s4
        | .ok lvl s4 =>
          if validate = true ∧ s4.indent_level = -1 ∧ ¬(lvl = 0) then
            .err (.trans (s2l "The document as a whole must not be indented")) s4
          else
            .ok lvl { s4 with pos := indent_start }

/-- Python `Translator.check_for_document_begin`; reading `self.text[self.pos]`
at the end of input raises `IndexError`, modelled as `Err.idx`. -/
def check_for_document_begin (s : St) : Res Bool :=
  if ¬(s.indent_level = 0) ∨ s.preamble = false then .ok false s
  else
    let token_start := s.pos
    let s1 := parse_while iswhitespace (parse_empty s)
    if s1.pos < s1.text.length then
      let c := charAtD s1.text s1.pos
      if c = '=' then
        let separator_start := s1.pos
        let s2 := parse_while (fun d => decide (d = '=')) s1
        if s2.pos - separator_start < 3 then
          .err (.trans
            (s2l "Separator indicating start of document must be at least '===' (3 equal signs).")) s2
        else
          let s3 := parse_while iswhitespace s2
          if s3.pos = s3.text.length ∨ charAtD s3.text s3.pos = '\n' then
            .ok true { s3 with preamble := false }
          else
            .ok false { s3 with pos := token_start }
      else if ¬(c = '\\' ∨ c = '%' ∨ c = '\n') then
        .err (.trans (s2l "Preamble lines must start with \\.")) s1
      else
        .ok false { s1 with pos := token_start }
    else .err .idx s1

/-- Python class `Arg`: one parsed argument (contents may be `None` in Python). -/
structure Arg where
  contents : Option (List Char)
  optional : Bool
deriving DecidableEq, Repr

/-- Loop of Python `resolve_args` over the `params` pattern string. -/
def resolveLoop (name : List Char) (args : List Arg) :
    List Char → Nat → List (Option (List Char)) → Except Err (List (Option (List Char)))
  | [], _, acc => .ok acc
  | p :: ps, arg_num, acc =>
    if p = '!' then
      match args[arg_num]? with
      | some a =>
        if a.optional = false then
          resolveLoop name args ps (arg_num + 1) (acc ++ [a.contents])
        else
          .error (.trans (s2l "Superfluous optional argument provided to command `" ++
            name ++ s2l "`"))
      | none =>
        .error (.trans (s2l "Missing required argument for command `" ++ name ++ s2l "`"))
    else
      match args[arg_num]? with
      | some a =>
        if a.optional = true then
          resolveLoop name args ps (arg_num + 1) (acc ++ [a.contents])
        else
          resolveLoop name args ps arg_num (acc ++ [none])
      | none => resolveLoop name args ps arg_num (acc ++ [none])

/-- Python `resolve_args`: resolve parsed arguments against a parameter
pattern; raising the plain `Exception` for too many arguments is modelled as
`Err.internal`. -/
def resolve_args (name params : List Char) (args : List Arg) :
    Except Err (List (Option (List Char))) :=
  if args.length > params.length then
    .error (.internal (s2l "Internal error: too many arguments"))
  else resolveLoop name args params 0 []

/-- Python `unresolve_args`. -/
def unresolve_args : List Arg → List Char
  | [] => []
  | a :: rest =>
    (match a.contents with
     | some c => if a.optional then s2l "[" ++ c ++ s2l "]"
                 else s2l "\x7b" ++ c ++ s2l "\x7d"
     | none => []) ++ unresolve_args rest

/-- Python `latex_cmd`. -/
def latex_cmd (name : List Char) (args : List Arg) : List Char :=
  s2l "\\" ++ name ++ unresolve_args args

/-- Python `latex_env`. -/
def latex_env (name before body after args post_env : List Char) : List Char :=
  s2l "\\begin\x7b" ++ name ++ s2l "\x7d" ++ args ++ before ++ body ++ after ++
    s2l "\\end\x7b" ++ name ++ s2l "\x7d" ++ post_env

/-- Python class `Command` (the translate function is pure text-to-text). -/
structure Command where
  name : List Char
  params : List Char
  translate_fn : List (Option (List Char)) → Except Err (List Char)

/-- Python `Command.translate`. -/
def Command.translate (c : Command) (args : List Arg) : Except Err (List Char) :=
  match resolve_args c.name c.params args with
  | .error e => .error e
  | .ok resolved => c.translate_fn resolved

/-- Python class `Environment`. -/
structure Environment where
  name : List Char
  params : List Char
  is_raw : Bool
  translate_fn : List Char → List (Option (List Char)) → Except Err (List Char)

/-- Python `Environment.translate` (its `try`/re-`raise` is the identity). -/
def Environment.translate (e : Environment) (body : List Char) (args : List Arg) :
    Except Err (List Char) :=
  match resolve_args e.name e.params args with
  | .error er => .error er
  | .ok resolved => e.translate_fn body resolved

/-- Python `translate_docclass` (arity mismatch would be a Python `TypeError`). -/
def translate_docclass (r : List (Option (List Char))) : Except Err (List Char) :=
  match r with
  | [opts, arg] => .ok (latex_cmd (s2l "documentclass") [⟨opts, true⟩, ⟨arg, false⟩])
  | _ => .error (.internal (s2l "TypeError: translate_docclass arity"))

/-- The `commands` registry of translator.py. -/
def commandsReg (name : List Char) : Option Command :=
  if name = s2l "docclass" then some ⟨s2l "docclass", s2l "?!", translate_docclass⟩
  else none

/-- Python `translate_eq`. -/
def translate_eq (body : List Char) (r : List (Option (List Char))) :
    Except Err (List Char) :=
  match r with
  | [label] =>
    let before := match label with
      | some l => s2l "\\label\x7beq:" ++ l ++ s2l "\x7d"
      | none => []
    .ok (latex_env (s2l "equation") before body [] [] [])
  | _ => .error (.internal (s2l "TypeError: translate_eq arity"))

/-- Python `translate_pysplice`: delegates the body to the external sandboxed
execution collaborator (epicbox), which is outside this model; modelled as an
uncatchable internal error, matching the Python behaviour in an environment
where the collaborator is unavailable. -/
def translate_pysplice (_body : List Char) (r : List (Option (List Char))) :
    Except Err (List Char) :=
  match r with
  | [] => .error (.internal (s2l "pysplice: external sandboxed execution"))
  | _ => .error (.internal (s2l "TypeError: translate_pysplice arity"))

/-- Python `translate_verbatim`. -/
def translate_verbatim (body : List Char) (r : List (Option (List Char))) :
    Except Err (List Char) :=
  match r with
  | [] => .ok (latex_env (s2l "verbatim") [] body [] [] [])
  | _ => .error (.internal (s2l "TypeError: translate_verbatim arity"))

/-- The `environments` registry of translator.py. -/
def environmentsReg (name : List Char) : Option Environment :=
  if name = s2l "eq" then some ⟨s2l "eq", s2l "?", false, translate_eq⟩
  else if name = s2l "pysplice" then some ⟨s2l "pysplice", [], true, translate_pysplice⟩
  else if name = s2l "verbatim" then some ⟨s2l "verbatim", [], true, translate_verbatim⟩
  else none

/-- Argument of Python `do_environment`: either a registered `Environment`
object or the bare name of an unregistered one. -/
inductive EnvOrName where
  | reg : Environment → EnvOrName
  | name : List Char → EnvOrName

/-- Recursive-call requests of the first mutual-recursion group of
translator.py (`parse_arg`, its scanning loop, `parse_args`, its loop, and
`do_command`). -/
inductive Req1 where
  | parseArg (close : Char) (required : Bool)
  | argLoop (close : Char) (required : Bool) (token_start : Nat) (body : List Char)
  | parseArgs (min_args max_args : Option Nat)
  | argsLoop (min_args max_args : Option Nat) (args : List Arg) (parse_start nargs : Nat)
  | doCommand (cmd : Command)

/-- Result type of each request of the first group. -/
@[reducible] def RespTy1 : Req1 → Type
  | .parseArg _ _ => Option (List Char)
  | .argLoop _ _ _ _ => Option (List Char)
  | .parseArgs _ _ => List Arg × List Char
  | .argsLoop _ _ _ _ _ => List Arg × List Char
  | .doCommand _ => List Char

/-- End of the scanning loop of Python `parse_arg` (reached at end of input). -/
def parse_argEnd (close : Char) (required : Bool) (s : St) : Res (Option (List Char)) :=
  if required then .err (.trans (s2l "Missing closing `" ++ [close] ++ s2l "`")) s
  else .ok none s

/-- One fuel level of the first mutual-recursion group; `ih` performs the
recursive calls (with one fuel level less). -/
def run1_body (ih : (r : Req1) → St → Res (RespTy1 r)) : (r : Req1) → St → Res (RespTy1 r)
  | .parseArg close required, s => ih (.argLoop close required s.pos []) s
  | .argLoop close required token_start body, s =>
    if s.pos < s.text.length then
      let s1 := parse_until (fun c => decide (c = '\\' ∨ c = close ∨ c = lbraceC ∨ c = '%')) s
      if s1.pos < s1.text.length then
        let c := charAtD s1.text s1.pos
        if c = lbraceC then
          let body1 := body ++ sliceL s1.text token_start s1.pos
          match ih (.parseArg rbraceC true) { s1 with pos := s1.pos + 1 } with
          | .err e s2 => .err e s2
          | .ok r s2 =>
            match r with
            | some a =>
              ih (.argLoop close required s2.pos (body1 ++ [lbraceC] ++ a ++ [rbraceC])) s2
            | none => .err (.internal (s2l "TypeError: cannot concatenate str and None")) s2
        else if c = '\\' then
          let escape_start := s1.pos
          let cs_s := parse_control_seq { s1 with pos := s1.pos + 1 }
          let control_seq := cs_s.1
          let s2 := cs_s.2
          let body1 := body ++ sliceL s1.text token_start escape_start
          match commandsReg control_seq with
          | some cmd =>
            match ih (.doCommand cmd) s2 with
            | .err e s3 => .err e s3
            | .ok out s3 => ih (.argLoop close required s3.pos (body1 ++ out)) s3
          | none =>
            match ih (.parseArgs none none) s2 with
            | .err e s3 => .err e s3
            | .ok (_args, argstr) s3 =>
              let whitespace_start := s3.pos
              let s4 := parse_while iswhitespace s3
              if s4.pos < s4.text.length ∧ charAtD s4.text s4.pos = ':' then
                .err (.internal (s2l "NameError: name prev_block_indent is not defined"))
                  { s4 with pos := s4.pos + 1 }
              else
                ih (.argLoop close required s4.pos
                  (body1 ++ ['\\'] ++ control_seq ++ argstr ++
                    sliceL s4.text whitespace_start s4.pos)) s4
        else if c = close then
          .ok (some (body ++ sliceL s1.text token_start s1.pos)) { s1 with pos := s1.pos + 1 }
        else
          let body1 := body ++ sliceL s1.text token_start s1.pos
          let s2 := parse_comments s1
          ih (.argLoop close required s2.pos body1) s2
      else parse_argEnd close required s1
    else parse_argEnd close required s
  | .parseArgs min_args max_args, s =>
    if max_args = some 0 then
      .err (.internal (s2l "NameError: name command is not defined")) s
    else ih (.argsLoop min_args max_args [] s.pos 0) s
  | .argsLoop min_args max_args args parse_start nargs, s =>
    let s1 := parse_while iswhitespace s
    if s1.pos = s1.text.length then .ok (args, sliceL s1.text parse_start s1.pos) s1
    else
      let c := charAtD s1.text s1.pos
      if c = lbraceC then
        match ih (.parseArg rbraceC true) { s1 with pos := s1.pos + 1 } with
        | .err e s2 => .err e s2
        | .ok r s2 =>
          let args1 := args ++ [⟨r, false⟩]
          if (match max_args with | some m => decide (nargs + 1 ≥ m) | none => false) then
            .ok (args1, sliceL s2.text parse_start s2.pos) s2
          else ih (.argsLoop min_args max_args args1 parse_start (nargs + 1)) s2
      else if c = '[' then
        let arg_start := s1.pos
        match ih (.parseArg ']' false) { s1 with pos := s1.pos + 1 } with
        | .err e s2 => .err e s2
        | .ok r s2 =>
          match r with
          | some a =>
            let args1 := args ++ [⟨some a, true⟩]
            if (match max_args with | some m => decide (nargs + 1 ≥ m) | none => false) then
              .ok (args1, sliceL s2.text parse_start s2.pos) s2
            else ih (.argsLoop min_args max_args args1 parse_start (nargs + 1)) s2
          | none =>
            .ok (args, sliceL s2.text parse_start arg_start) { s2 with pos := arg_start }
      else
        if (match min_args with | some m => decide (nargs < m) | none => false) then
          .err (.trans (s2l "Too few arguments provided")) s1
        else .ok (args, sliceL s1.text parse_start s1.pos) s1
  | .doCommand cmd, s =>
    if cmd.params.length = 0 then
      match cmd.translate [] with
      | .error e => .err e s
      | .ok out => .ok out s
    else
      match ih (.parseArgs none (some cmd.params.length)) s with
      | .err e s1 => .err e s1
      | .ok (args, _argstr) s1 =>
        match cmd.translate args with
        | .error e => .err e s1
        | .ok out => .ok out s1

/-- Fueled interpreter of the first mutual-recursion group. -/
def run1 : Nat → (r : Req1) → St → Res (RespTy1 r) :=
  fun n => Nat.rec (motive := fun _ => (r : Req1) → St → Res (RespTy1 r))
    (fun _ s => .err .fuel s) (fun _ ih => run1_body ih) n

/-- Recursive-call requests of the second mutual-recursion group of
translator.py (`parse_block`, its line loop, `do_environment`, and the
one-liner loop of `do_environment`). -/
inductive Req2 where
  | parseBlock (is_raw : Bool)
  | blockLoop (is_raw : Bool) (prev_block_indent : Int) (token_start : Nat) (body : List Char)
  | doEnv (env : EnvOrName) (args : List Arg) (argstr : List Char) (outer_indent : Int)
  | oneLiner (token_start : Nat) (body : List Char)

/-- Result type of each request of the second group. -/
@[reducible] def RespTy2 : Req2 → Type
  | .parseBlock _ => List Char
  | .blockLoop _ _ _ _ => List Char
  | .doEnv _ _ _ _ => List Char
  | .oneLiner _ _ => List Char × List Char

/-- Code after the line loop of Python `parse_block` (reached at end of input);
`body[-1]` on an empty body would raise `IndexError`. -/
def block_end (token_start : Nat) (body : List Char) (s : St) : Res (List Char) :=
  let body1 := body ++ s.text.drop token_start
  match body1.getLast? with
  | none => .err .idx s
  | some ch => .ok (if ¬(ch = '\n') then body1 ++ ['\n'] else body1) s

/-- One fuel level of the second mutual-recursion group; `n` is the fuel passed
to calls into the first group, `ih` performs the recursive calls of this group. -/
def run2_body (n : Nat) (ih : (r : Req2) → St → Res (RespTy2 r)) :
    (r : Req2) → St → Res (RespTy2 r)
  | .parseBlock is_raw, s =>
    let token_start := s.pos
    let s1 := parse_empty s
    match calc_indent_level (!is_raw) s1 with
    | .err e s2 => .err e s2
    | .ok lvl s2 =>
      if is_raw = false ∧ ¬((lvl : Int) = s2.indent_level + 1) then
        .err (.trans (s2l "Indent Error. You must either put the body of an environment all on one line, or on an indented block on the following line")) s2
      else
        ih (.blockLoop is_raw s2.indent_level token_start [])
          { s2 with indent_level := (lvl : Int) }
  | .blockLoop is_raw prev token_start body, s =>
    if s.pos = s.text.length then block_end token_start body s
    else
      match check_for_document_begin s with
      | .err e s1 => .err e s1
      | .ok true s1 =>
        let s2 : St := { s1 with indent_level := -1 }
        let body1 := if body = [] ∨ ¬(body.getLast? = some '\n') then body ++ ['\n'] else body
        match ih (.parseBlock false) s2 with
        | .err e s3 => .err e s3
        | .ok inner s3 =>
          .ok (body1 ++ latex_env (s2l "document") [] inner [] [] (s2l "\n")) s3
      | .ok false s1 =>
        let s2 := parse_until
          (fun c => decide (c = '\n') || (!is_raw && (decide (c = '\\') || decide (c = '%')))) s1
        if s2.pos = s2.text.length then block_end token_start body s2
        else
          let c := charAtD s2.text s2.pos
          if c = '\n' then
            let prev_line_end := s2.pos
            let s3 := parse_empty s2
            match calc_indent_level (!is_raw) s3 with
            | .err e s4 => .err e s4
            | .ok il s4 =>
              if is_raw = false ∧ (il : Int) > s4.indent_level then
                .err (.trans
                  (s2l "Invalid indentation not following the opening of an environment")) s4
              else if (il : Int) ≤ prev then
                .ok (body ++ sliceL s4.text token_start (prev_line_end + 1))
                  { s4 with pos := prev_line_end + 1, indent_level := (il : Int) }
              else ih (.blockLoop is_raw prev token_start body) s4
          else if c = '\\' then
            let escape_start := s2.pos
            let cs_s := parse_control_seq { s2 with pos := s2.pos + 1 }
            let control_seq := cs_s.1
            let s3 := cs_s.2
            let body1 := body ++ sliceL s2.text token_start escape_start
            match commandsReg control_seq with
            | some cmd =>
              match run1 n (.doCommand cmd) s3 with
              | .err e s4 => .err e s4
              | .ok out s4 => ih (.blockLoop is_raw prev s4.pos (body1 ++ out)) s4
            | none =>
              match run1 n (.parseArgs none none) s3 with
              | .err e s4 => .err e s4
              | .ok (args, argstr) s4 =>
                let whitespace_start := s4.pos
                let s5 := parse_while iswhitespace s4
                if s5.pos < s5.text.length ∧ charAtD s5.text s5.pos = ':' then
                  let s6 : St := { s5 with pos := s5.pos + 1 }
                  let env := match environmentsReg control_seq with
                    | some e => EnvOrName.reg e
                    | none => EnvOrName.name control_seq
                  match ih (.doEnv env args argstr (prev + 1)) s6 with
                  | .err e s7 => .err e s7
                  | .ok envOut s7 =>
                    let body2 := body1 ++ envOut
                    match body2.getLast? with
                    | none => .err .idx s7
                    | some ch =>
                      let body3 := if ¬(ch = '\n') then body2 ++ ['\n'] else body2
                      match calc_indent_level (!is_raw) s7 with
                      | .err e s8 => .err e s8
                      | .ok il s8 =>
                        if (il : Int) ≤ prev then
                          .ok body3 { s8 with indent_level := (il : Int) }
                        else ih (.blockLoop is_raw prev s8.pos body3) s8
                else
                  ih (.blockLoop is_raw prev s5.pos
                    (body1 ++ ['\\'] ++ control_seq ++ argstr ++
                      sliceL s5.text whitespace_start s5.pos)) s5
          else
            let s3 := parse_comments s2
            ih (.blockLoop is_raw prev s3.pos (body ++ sliceL s3.text token_start s3.pos)) s3
  | .doEnv env args argstr outer_indent, s =>
    let is_raw := match env with | .reg e => e.is_raw | .name _ => false
    let token_start := s.pos
    let s1 := parse_while iswhitespace s
    let bodyRes : Res (List Char × List Char) :=
      if s1.pos = s1.text.length then .ok (s1.text.drop token_start, []) s1
      else if charAtD s1.text s1.pos = '\n' then
        match ih (.parseBlock is_raw) s1 with
        | .err e s2 => .err e s2
        | .ok b s2 =>
          if outer_indent > 0 then
            match s2.indent_str with
            | none => .err (.internal (s2l "TypeError: indent_str is None")) s2
            | some u => .ok (b ++ mulList u outer_indent.toNat, []) s2
          else .ok (b, []) s2
      else ih (.oneLiner token_start []) s1
    match bodyRes with
    | .err e s2 => .err e s2
    | .ok (body, post_env) s2 =>
      match env with
      | .reg e =>
        match e.translate body args with
        | .error er => .err er s2
        | .ok out => .ok (out ++ post_env) s2
      | .name nm => .ok (latex_env nm [] body [] argstr (post_env ++ s2l "\n")) s2
  | .oneLiner token_start body, s =>
    if s.pos < s.text.length then
      let s1 := parse_until (fun c => decide (c = '\n' ∨ c = '\\' ∨ c = '%')) s
      if s1.pos = s1.text.length ∨ charAtD s1.text s1.pos = '\n' then
        .ok (body ++ sliceL s1.text token_start s1.pos, []) { s1 with pos := s1.pos + 1 }
      else if charAtD s1.text s1.pos = '\\' then
        let escape_start := s1.pos
        let cs_s := parse_control_seq { s1 with pos := s1.pos + 1 }
        let control_seq := cs_s.1
        let s2 := cs_s.2
        let body1 := body ++ sliceL s1.text token_start escape_start
        match commandsReg control_seq with
        | some cmd =>
          match run1 n (.doCommand cmd) s2 with
          | .err e s3 => .err e s3
          | .ok out s3 => ih (.oneLiner s3.pos (body1 ++ out)) s3
        | none =>
          match run1 n (.parseArgs none none) s2 with
          | .err e s3 => .err e s3
          | .ok (_args2, argstr2) s3 =>
            let whitespace_start := s3.pos
            let s4 := parse_while iswhitespace s3
            ih (.oneLiner s4.pos
              (body1 ++ ['\\'] ++ control_seq ++ argstr2 ++
                sliceL s4.text whitespace_start s4.pos)) s4
      else
        let body1 := body ++ sliceL s1.text token_start s1.pos
        let comment_start := s1.pos
        let s2 := parse_comments s1
        .ok (body1, sliceL s2.text comment_start s2.pos) s2
    else .ok (body, []) s

/-- Fueled interpreter of the second mutual-recursion group. -/
def run2 : Nat → (r : Req2) → St → Res (RespTy2 r) :=
  fun n => Nat.rec (motive := fun _ => (r : Req2) → St → Res (RespTy2 r))
    (fun _ s => .err .fuel s) (fun m ih => run2_body m ih) n

/-- Python `Translator.parse_arg`. -/
def parse_arg (fuel : Nat) (close : Char) (required : Bool) (s : St) :
    Res (Option (List Char)) :=
  run1 fuel (.parseArg close required) s

/-- Python `Translator.parse_args`. -/
def parse_args (fuel : Nat) (min_args max_args : Option Nat) (s : St) :
    Res (List Arg × List Char) :=
  run1 fuel (.parseArgs min_args max_args) s

/-- Python `Translator.do_command`. -/
def do_command (fuel : Nat) (cmd : Command) (s : St) : Res (List Char) :=
  run1 fuel (.doCommand cmd) s

/-- Python `Translator.do_environment`. -/
def do_environment (fuel : Nat) (env : EnvOrName) (args : List Arg) (argstr : List Char)
    (outer_indent : Int) (s : St) : Res (List Char) :=
  run2 fuel (.doEnv env args argstr outer_indent) s

/-- Python `Translator.parse_block`. -/
def parse_block (fuel : Nat) (is_raw : Bool) (s : St) : Res (List Char) :=
  run2 fuel (.parseBlock is_raw) s

/-- Input normalization of `Translator.__init__`: append a newline when the
text is empty or does not end with one. -/
def normalizeText (input : List Char) : List Char :=
  if input = [] ∨ ¬(input.getLast? = some '\n') then input ++ ['\n'] else input

/-- Python `Translator.__init__`. -/
def Translator.init (input : List Char) : St :=
  { indent_str := none, indent_level := 0, pos := 0,
    text := normalizeText input, preamble := false }

/-- The stderr text written by Python `Translator.print_error`. -/
def print_error (msg : List Char) (s : St) : List Char :=
  msg ++ s2l " at char " ++ s2l (toString s.pos) ++ s2l " (next 10 chars: " ++
    sliceL s.text s.pos (s.pos + 10) ++ s2l ")"

/-- Python `Translator.translate`: runs the parse; returns the rendered text on
success, and on a `TranslationError` returns no output together with the
reported error text.  Any non-`TranslationError` exception propagates. -/
def Translator.translate (fuel : Nat) (s : St) : Res (Option (List Char) × Option (List Char)) :=
  match parse_block fuel false { s with preamble := true, indent_level := -1 } with
  | .ok body s1 => .ok (some body, none) s1
  | .err (.trans msg) s1 => .ok (none, some (print_error msg s1)) s1
  | .err e s1 => .err e s1

/-- Whole translation session on a source text. -/
def translate_source (fuel : Nat) (input : List Char) :
    Res (Option (List Char) × Option (List Char)) :=
  Translator.translate fuel (Translator.init input)

/-- Output text of a session (`None` on any error). -/
def resOutput (r : Res (Option (List Char) × Option (List Char))) : Option (List Char) :=
  match r with
  | .ok (o, _) _ => o
  | .err _ _ => none

/-- Reported error text of a session. -/
def resReport (r : Res (Option (List Char) × Option (List Char))) : Option (List Char) :=
  match r with
  | .ok (_, rep) _ => rep
  | .err _ _ => none

/-- Uncaught exception of a session, if any. -/
def resCrash (r : Res (Option (List Char) × Option (List Char))) : Option Err :=
  match r with
  | .ok _ _ => none
  | .err e _ => some e

/-- Python `prepTranslator` (bottom of translator.py): a translator whose
indentation unit is preset to four spaces and whose indentation level is given. -/
def prepTranslator (source : List Char) (indent_level : Int) : St :=
  { Translator.init source with indent_str := some (s2l "    "), indent_level := indent_level }

/-- Output of a block parse (`none` on any exception). -/
def blockOutput (r : Res (List Char)) : Option (List Char) :=
  match r with
  | .ok o _ => some o
  | .err _ _ => none

/-- C1: a full translation session on `\docclass{article}\n===\nHello?\n`
succeeds (no error is reported) and returns exactly
`\documentclass{article}\n\begin{document}\nHello?\n\end{document}\n`: the
docclass command is re-emitted as a canonical documentclass command with its
required argument, the `===` line ends preamble mode, and the remaining input
is wrapped in a begin/end document environment. -/
theorem C1_docclass_separator_session :
    resOutput (translate_source 100 (s2l "\\docclass\x7barticle\x7d\n===\nHello?\n")) =
      some (s2l "\\documentclass\x7barticle\x7d\n\\begin\x7bdocument\x7d\nHello?\n\\end\x7bdocument\x7d\n") ∧
    resReport (translate_source 100 (s2l "\\docclass\x7barticle\x7d\n===\nHello?\n")) = none := by
  decide

/-- C2 counterexample: at root level the environment-opening input
`\foo{a}: \n    body\n` does NOT render as
`\begin{foo}{a}\n    body\n\end{foo}` — the code emits a trailing newline
after `\end{foo}` (the `post_env+'\n'` argument of `latex_env` in
`do_environment`), so the claimed output string is off by that final newline. -/
theorem C2_counterexample :
    ¬ (blockOutput (parse_block 100 false (prepTranslator (s2l "\\foo\x7ba\x7d: \n    body\n") (-1))) =
        some (s2l "\\begin\x7bfoo\x7d\x7ba\x7d\n    body\n\\end\x7bfoo\x7d")) := by
  decide

/-- C2 amended: at root level (a block parse at the sentinel root indentation
level, as set up by `prepTranslator`), `\foo{a}: \n    body\n` renders as
`\begin{foo}{a}\n    body\n\end{foo}\n` — the generic begin/end wrapper with
the name and literal argument text around the indented block body, followed by
a trailing newline — while `\foo{a}\n` (no trailing colon) renders as the
literal escape, name, and argument text unchanged. -/
theorem C2_colon_environment_amended :
    blockOutput (parse_block 100 false (prepTranslator (s2l "\\foo\x7ba\x7d: \n    body\n") (-1))) =
      some (s2l "\\begin\x7bfoo\x7d\x7ba\x7d\n    body\n\\end\x7bfoo\x7d\n") ∧
    blockOutput (parse_block 100 false (prepTranslator (s2l "\\foo\x7ba\x7d\n") (-1))) =
      some (s2l "\\foo\x7ba\x7d\n") := by
  decide

/-- C3 counterexample: the input `  %a\n` contains no control sequences and no
document separator (no `=` at all), yet a full translation session does not
return the input: the indented first content line makes `calc_indent_level`
raise the fatal `The document as a whole must not be indented` error, so the
session returns no output at all. -/
theorem C3_counterexample :
    resOutput (translate_source 10 (s2l "  %a\n")) = none ∧
    resReport (translate_source 10 (s2l "  %a\n")) =
      some (s2l "The document as a whole must not be indented at char 2 (next 10 chars: %a\n)") := by
  decide

/-- C4 counterexample: a session that establishes the indentation unit as four
spaces (the body of `\foo:`) later accepts a line indented with four tabs (the
body of `\bar:`): the indent is homogeneous and its length is a whole multiple
of the unit's length, so no fatal error is raised even though the indentation
character differs from the unit's — the translation succeeds. -/
theorem C4_counterexample :
    resOutput (translate_source 200 (s2l "\\foo:\n    a\n\\bar:\n\t\t\t\tb\n")) =
      some (s2l "\\begin\x7bfoo\x7d\n    a\n\\end\x7bfoo\x7d\n\\begin\x7bbar\x7d\n\t\t\t\tb\n\\end\x7bbar\x7d\n") := by
  decide

/-- C6 counterexample: the root-level preamble line `====x` is not blank, does
not start with the escape or comment character, and is not a separator line
(non-whitespace follows the `=` run), yet the session does not fail with an
invalid-preamble-line error: the line passes through unchanged, because
`check_for_document_begin` falls through without error whenever the line starts
with three or more `=` characters. -/
theorem C6_counterexample :
    resOutput (translate_source 50 (s2l "====x\n")) = some (s2l "====x\n") ∧
    resReport (translate_source 50 (s2l "====x\n")) = none := by
  decide

/-- C8 counterexample: dispatching the registered environment `eq` (pattern
`?`, one slot) on the input `\eq{a}{b}: x\n` hands two parsed arguments to
argument resolution — `parse_block` parses environment arguments with
`parse_args()` and no maximum — so the too-many-arguments internal-consistency
branch of `resolve_args` is reached and the plain internal `Exception`
(not a `TranslationError`) escapes the session. -/
theorem C8_counterexample :
    resCrash (translate_source 100 (s2l "\\eq\x7ba\x7d\x7bb\x7d: x\n")) =
      some (.internal (s2l "Internal error: too many arguments")) := by
  decide

/-- C9: a translation session either succeeds, in which case `translate`
returns the fully rendered output text and reports nothing, or the parse
raises a fatal `TranslationError`, in which case `translate` returns no output
(`none`) — never a partial text — and reports the message together with the
failing character offset and the ten-character excerpt following it. -/
theorem C9_translate_reports_or_returns (fuel : Nat) (s : St) :
    (∀ out s1,
      parse_block fuel false { s with preamble := true, indent_level := -1 } = .ok out s1 →
      Translator.translate fuel s = .ok (some out, none) s1) ∧
    (∀ msg s1,
      parse_block fuel false { s with preamble := true, indent_level := -1 } =
          .err (.trans msg) s1 →
      Translator.translate fuel s =
        .ok (none, some (msg ++ s2l " at char " ++ s2l (toString s1.pos) ++
          s2l " (next 10 chars: " ++ sliceL s1.text s1.pos (s1.pos + 10) ++ s2l ")")) s1) := by
  constructor
  · intro out s1 h
    simp [Translator.translate, h]
  · intro msg s1 h
    simp [Translator.translate, h, print_error]

/-- C9 witness: on the input `  %a\n` the parse fails with the fatal
root-indentation error, and `translate` returns no output together with the
report carrying the message, offset 2, and the following excerpt. -/
theorem C9_witness :
    Translator.translate 10 (Translator.init (s2l "  %a\n")) =
      .ok (none, some (s2l "The document as a whole must not be indented at char 2 (next 10 chars: %a\n)"))
        ⟨some (s2l "  "), -1, 2, s2l "  %a\n", true⟩ := by
  have h := (C9_translate_reports_or_returns 10 (Translator.init (s2l "  %a\n"))).2
    (s2l "The document as a whole must not be indented")
    ⟨some (s2l "  "), -1, 2, s2l "  %a\n", true⟩ (by decide)
  exact h.trans (by decide)

/-- Kind-consistency of a parsed-argument sequence with a parameter pattern:
arguments are matched to slots in order, a required slot (`!`) consumes exactly
one argument flagged non-optional, and an optional slot (any other pattern
character) either consumes one argument flagged optional or is skipped. -/
inductive Consistent : List Char → List Arg → Prop
  | nil : Consistent [] []
  | req {ps : List Char} {a : Arg} {rest : List Arg} :
      a.optional = false → Consistent ps rest → Consistent ('!' :: ps) (a :: rest)
  | optTake {ps : List Char} {a : Arg} {rest : List Arg} (c : Char) :
      ¬(c = '!') → a.optional = true → Consistent ps rest → Consistent (c :: ps) (a :: rest)
  | optSkip {ps : List Char} {rest : List Arg} (c : Char) :
      ¬(c = '!') → Consistent ps rest → Consistent (c :: ps) rest

/-- Dropping a leading optional argument preserves consistency (the slot that
consumed it can be skipped instead). -/
theorem Consistent.drop_opt {ps : List Char} {args : List Arg} (h : Consistent ps args) :
    ∀ {a : Arg} {rest : List Arg}, args = a :: rest → a.optional = true → Consistent ps rest := by
  induction h with
  | nil => intro a rest heq _; cases heq
  | req hopt _ _ =>
    intro a rest heq hopta
    cases heq
    rw [hopta] at hopt
    cases hopt
  | optTake c hne _ h _ =>
    intro a rest heq _
    cases heq
    exact Consistent.optSkip c hne h
  | optSkip c hne _ ih =>
    intro a rest heq hopta
    exact Consistent.optSkip c hne (ih heq hopta)

/-- Element at `k` read off a drop decomposition. -/
theorem getElem?_of_drop {α : Type} :
    ∀ (l : List α) (k : Nat) (a : α) (rest : List α), l.drop k = a :: rest → l[k]? = some a := by
  intro l
  induction l with
  | nil => intro k a rest h; simp at h
  | cons x xs ih =>
    intro k a rest h
    cases k with
    | zero => simp at h; simp [h.1]
    | succ k => simp at h ⊢; exact ih k a rest h

/-- Dropping one more element of a drop decomposition. -/
theorem drop_succ_of_drop {α : Type} :
    ∀ (l : List α) (k : Nat) (a : α) (rest : List α), l.drop k = a :: rest → l.drop (k + 1) = rest := by
  intro l
  induction l with
  | nil => intro k a rest h; simp at h
  | cons x xs ih =>
    intro k a rest h
    cases k with
    | zero => simp at h ⊢; exact h.2
    | succ k => simp at h ⊢; exact ih k a rest h

/-- Membership read off a drop decomposition. -/
theorem mem_of_drop {α : Type} :
    ∀ (l : List α) (k : Nat) (a : α) (rest : List α), l.drop k = a :: rest → a ∈ l := by
  intro l
  induction l with
  | nil => intro k a rest h; simp at h
  | cons x xs ih =>
    intro k a rest h
    cases k with
    | zero => simp at h; simp [h.1]
    | succ k => simp at h; exact List.mem_cons_of_mem x (ih k a rest h)

/-- Main induction for C5: if the remaining arguments are consistent with the
remaining pattern, the resolution loop succeeds, appends exactly one entry per
pattern slot, and puts `none` entries only at non-required slots. -/
theorem resolveLoop_spec (name : List Char) (args : List Arg)
    (hsome : ∀ a ∈ args, ¬(a.contents = none)) :
    ∀ (ps : List Char) (rem : List Arg) (k : Nat) (acc : List (Option (List Char))),
      args.drop k = rem → Consistent ps rem →
      ∃ res, resolveLoop name args ps k acc = .ok (acc ++ res) ∧
        res.length = ps.length ∧
        (∀ i : Nat, res[i]? = some none → ¬(ps[i]? = some '!')) := by
  intro ps
  induction ps with
  | nil =>
    intro rem k acc _ _
    refine ⟨[], by simp [resolveLoop], by simp, ?_⟩
    intro i hi
    simp at hi
  | cons p ps ih =>
    intro rem k acc hdrop hc
    by_cases hp : p = '!'
    · subst hp
      cases hc with
      | req hopt hrest =>
        rename_i a rest
        have hk : args[k]? = some a := getElem?_of_drop args k a rest hdrop
        have hd : args.drop (k + 1) = rest := drop_succ_of_drop args k a rest hdrop
        obtain ⟨res, h1, h2, h3⟩ := ih rest (k + 1) (acc ++ [a.contents]) hd hrest
        refine ⟨a.contents :: res, ?_, by simp [h2], ?_⟩
        · simp only [resolveLoop, if_pos rfl, hk, hopt]
          simpa [List.append_assoc] using h1
        · intro i hi
          cases i with
          | zero =>
            simp at hi
            exact absurd hi (hsome a (mem_of_drop args k a rest hdrop))
          | succ i =>
            simp at hi ⊢
            have := h3 i (by simpa using hi)
            simpa using this
      | optTake c hne _ _ => exact absurd rfl hne
      | optSkip c hne _ => exact absurd rfl hne
    · cases hc with
      | req hopt hrest => exact absurd rfl hp
      | optTake c hne hopt hrest =>
        rename_i a rest
        have hk : args[k]? = some a := getElem?_of_drop args k a rest hdrop
        have hd : args.drop (k + 1) = rest := drop_succ_of_drop args k a rest hdrop
        obtain ⟨res, h1, h2, h3⟩ := ih rest (k + 1) (acc ++ [a.contents]) hd hrest
        refine ⟨a.contents :: res, ?_, by simp [h2], ?_⟩
        · simp only [resolveLoop, if_neg hp, hk, hopt]
          simpa [List.append_assoc] using h1
        · intro i hi
          cases i with
          | zero => simp [hp]
          | succ i =>
            simp at hi ⊢
            have := h3 i (by simpa using hi)
            simpa using this
      | optSkip c hne hrest =>
        match hrem : args[k]? with
        | some a =>
          have hremdecomp : rem = a :: args.drop (k + 1) := by
            cases hdd : args.drop k with
            | nil =>
              exfalso
              have : args[k]? = none := by
                cases hnn : args[k]? with
                | none => rfl
                | some b =>
                  exfalso
                  have hlt : k < args.length := (List.getElem?_eq_some_iff.mp hnn).1
                  have : args.length - k = 0 := by
                    have := congrArg List.length hdd
                    simpa using this
                  omega
              rw [this] at hrem; cases hrem
            | cons b tail =>
              have hb : args[k]? = some b := getElem?_of_drop args k b tail hdd
              rw [hb] at hrem
              cases hrem
              have : args.drop (k + 1) = tail := drop_succ_of_drop args k a tail hdd
              rw [← hdrop, hdd, this]
          by_cases hopt : a.optional = true
          · have hcrest : Consistent ps (args.drop (k + 1)) :=
              Consistent.drop_opt (hremdecomp ▸ hrest) rfl hopt
            obtain ⟨res, h1, h2, h3⟩ := ih (args.drop (k + 1)) (k + 1) (acc ++ [a.contents]) rfl hcrest
            refine ⟨a.contents :: res, ?_, by simp [h2], ?_⟩
            · simp only [resolveLoop, if_neg hp, hrem, hopt]
              simpa [List.append_assoc] using h1
            · intro i hi
              cases i with
              | zero => simp [hp]
              | succ i =>
                simp at hi ⊢
                have := h3 i (by simpa using hi)
                simpa using this
          · obtain ⟨res, h1, h2, h3⟩ := ih rem k (acc ++ [none]) hdrop hrest
            refine ⟨none :: res, ?_, by simp [h2], ?_⟩
            · simp only [resolveLoop, if_neg hp, hrem, if_neg hopt]
              simpa [List.append_assoc] using h1
            · intro i hi
              cases i with
              | zero => simp [hp]
              | succ i =>
                simp at hi ⊢
                have := h3 i (by simpa using hi)
                simpa using this
        | none =>
          obtain ⟨res, h1, h2, h3⟩ := ih rem k (acc ++ [none]) hdrop hrest
          refine ⟨none :: res, ?_, by simp [h2], ?_⟩
          · simp only [resolveLoop, if_neg hp, hrem]
            simpa [List.append_assoc] using h1
          · intro i hi
            cases i with
            | zero => simp [hp]
            | succ i =>
              simp at hi ⊢
              have := h3 i (by simpa using hi)
              simpa using this

/-- C5: for every parameter pattern of length n and every parsed-argument
sequence of length at most n that is consistent with the kind-matching rule
(each required `!` slot consumes only an argument flagged non-optional, each
optional slot consumes only an argument flagged optional), `resolve_args`
returns, without raising, a positional list of length exactly n in which each
position holds either the matched argument's text or the explicit absent marker
`none`, and absent markers occur only at non-required slots. -/
theorem C5_resolution_totality (name params : List Char) (args : List Arg)
    (hsome : ∀ a ∈ args, ¬(a.contents = none))
    (hlen : args.length ≤ params.length) (hc : Consistent params args) :
    ∃ res, resolve_args name params args = .ok res ∧ res.length = params.length ∧
      (∀ i : Nat, res[i]? = some none → ¬(params[i]? = some '!')) := by
  obtain ⟨res, h1, h2, h3⟩ := resolveLoop_spec name args hsome params args 0 [] rfl hc
  refine ⟨res, ?_, h2, h3⟩
  rw [resolve_args, if_neg (by omega)]
  simpa using h1

/-- C5 witness: the pattern `?!` with the single non-optional argument `a`
resolves to `[none, some a]` — length two, with the absent marker at the
optional slot only. -/
theorem C5_witness :
    ∃ res, resolve_args (s2l "f") (s2l "?!") [⟨some (s2l "a"), false⟩] = .ok res ∧
      res.length = (s2l "?!").length ∧
      (∀ i : Nat, res[i]? = some none → ¬((s2l "?!")[i]? = some '!')) :=
  C5_resolution_totality (s2l "f") (s2l "?!") [⟨some (s2l "a"), false⟩]
    (by decide) (by decide)
    (Consistent.optSkip '?' (by decide) (Consistent.req rfl Consistent.nil))


/-- The scan position never moves backwards. -/
theorem scanWhile_ge (p : Char → Bool) : ∀ (l : List Char) (i : Nat), i ≤ scanWhile p l i := by
  intro l
  induction l with
  | nil => intro i; simp [scanWhile]
  | cons c rest ih =>
    intro i
    by_cases h : p c = true
    · simp only [scanWhile, if_pos h]
      exact le_trans (Nat.le_succ i) (ih (i + 1))
    · simp [scanWhile, h]

/-- The scan position never passes the end of the scanned suffix. -/
theorem scanWhile_le (p : Char → Bool) :
    ∀ (l : List Char) (i : Nat), scanWhile p l i ≤ i + l.length := by
  intro l
  induction l with
  | nil => intro i; simp [scanWhile]
  | cons c rest ih =>
    intro i
    by_cases h : p c = true
    · simp only [scanWhile, if_pos h]
      have := ih (i + 1)
      simp only [List.length_cons]
      omega
    · simp only [scanWhile, if_neg h, List.length_cons]
      omega

/-- The scan stops at or before any position whose character fails the predicate. -/
theorem scanWhile_stop (p : Char → Bool) :
    ∀ (l : List Char) (i j : Nat), i ≤ j → ∀ d, l[j - i]? = some d → p d = false →
      scanWhile p l i ≤ j := by
  intro l
  induction l with
  | nil => intro i j _ d hd; simp at hd
  | cons c rest ih =>
    intro i j hij d hd hp
    by_cases hc : p c = true
    · simp only [scanWhile, if_pos hc]
      rcases Nat.eq_or_lt_of_le hij with heq | hlt
      · subst heq
        simp at hd
        rw [← hd] at hp
        rw [hp] at hc
        cases hc
      · have hji : j - i = (j - (i + 1)) + 1 := by omega
        rw [hji] at hd
        simp only [List.getElem?_cons_succ] at hd
        exact ih (i + 1) j hlt d hd hp
    · simp only [scanWhile, if_neg hc]
      exact hij

/-- Scanning past a satisfying prefix. -/
theorem scanWhile_append_all (p : Char → Bool) :
    ∀ (u v : List Char) (i : Nat), (∀ c ∈ u, p c = true) →
      scanWhile p (u ++ v) i = scanWhile p v (i + u.length) := by
  intro u
  induction u with
  | nil => intro v i _; simp
  | cons c rest ih =>
    intro v i hall
    have hc : p c = true := hall c (by simp)
    have step : scanWhile p ((c :: rest) ++ v) i = scanWhile p (rest ++ v) (i + 1) := by
      show scanWhile p (c :: (rest ++ v)) i = _
      simp [scanWhile, hc]
    rw [step, ih v (i + 1) (fun d hd => hall d (by simp [hd]))]
    congr 1
    simp only [List.length_cons]
    omega

/-- Scanning stops immediately on a failing head. -/
theorem scanWhile_cons_false (p : Char → Bool) (c : Char) (v : List Char) (i : Nat)
    (h : p c = false) : scanWhile p (c :: v) i = i := by
  simp [scanWhile, h]

/-- Bounds of a successful `findFrom`. -/
theorem findFrom_some_bounds (p : Char → Bool) :
    ∀ (l : List Char) (i j : Nat), findFrom p l i = some j → i ≤ j ∧ j < i + l.length := by
  intro l
  induction l with
  | nil => intro i j h; simp [findFrom] at h
  | cons c rest ih =>
    intro i j h
    by_cases hc : p c = true
    · simp only [findFrom, if_pos hc, Option.some.injEq] at h
      simp only [List.length_cons]
      omega
    · simp only [findFrom, if_neg hc] at h
      have := ih (i + 1) j h
      simp only [List.length_cons]
      omega

/-- Value of `findFrom` on a decomposed suffix. -/
theorem findFrom_append (p : Char → Bool) :
    ∀ (u : List Char) (c : Char) (v : List Char) (i : Nat),
      (∀ x ∈ u, p x = false) → p c = true →
      findFrom p (u ++ c :: v) i = some (i + u.length) := by
  intro u
  induction u with
  | nil => intro c v i _ hc; simp [findFrom, hc]
  | cons x rest ih =>
    intro c v i hall hc
    have hx : p x = false := hall x (by simp)
    have step : findFrom p ((x :: rest) ++ c :: v) i = findFrom p (rest ++ c :: v) (i + 1) := by
      show findFrom p (x :: (rest ++ c :: v)) i = _
      simp [findFrom, hx]
    rw [step, ih c v (i + 1) (fun d hd => hall d (by simp [hd])) hc]
    simp only [Option.some.injEq, List.length_cons]
    omega

/-- `findFrom` fails when no character satisfies the predicate. -/
theorem findFrom_none (p : Char → Bool) :
    ∀ (l : List Char) (i : Nat), (∀ x ∈ l, p x = false) → findFrom p l i = none := by
  intro l
  induction l with
  | nil => intro i _; rfl
  | cons x rest ih =>
    intro i hall
    have hx : p x = false := hall x (by simp)
    simp only [findFrom, if_neg (by simp [hx] : ¬ p x = true)]
    exact ih (i + 1) (fun d hd => hall d (by simp [hd]))

/-- State preservation relation: the text is unchanged, an established
indentation unit is unchanged, and the cursor bound is preserved. -/
def Pres (s t : St) : Prop :=
  t.text = s.text ∧ (∀ u, s.indent_str = some u → t.indent_str = some u) ∧
    (s.pos ≤ s.text.length → t.pos ≤ s.text.length)

/-- Preservation for the state carried by an outcome. -/
def ResPres {α : Type} (s : St) (r : Res α) : Prop := Pres s r.after

theorem Pres.presSelf (s : St) : Pres s s := ⟨rfl, fun _ h => h, fun h => h⟩

theorem Pres.presComp {s t u : St} (h1 : Pres s t) (h2 : Pres t u) : Pres s u := by
  obtain ⟨a1, b1, c1⟩ := h1
  obtain ⟨a2, b2, c2⟩ := h2
  refine ⟨a2.trans a1, fun v hv => b2 v (b1 v hv), fun h => ?_⟩
  have := c2 (by rw [a1]; exact c1 h)
  rwa [a1] at this

theorem Pres.parse_while (p : Char → Bool) (s : St) : Pres s (parse_while p s) := by
  refine ⟨rfl, fun _ h => h, fun h => ?_⟩
  have := scanWhile_le p (s.text.drop s.pos) s.pos
  simp only [List.length_drop] at this
  show scanWhile p (s.text.drop s.pos) s.pos ≤ s.text.length
  omega

theorem parse_while_pos_ge (p : Char → Bool) (s : St) : s.pos ≤ (parse_while p s).pos :=
  scanWhile_ge p (s.text.drop s.pos) s.pos

theorem Pres.parse_until (p : Char → Bool) (s : St) : Pres s (parse_until p s) :=
  Pres.parse_while _ s

/-- Shape of the `parse_empty` loop: only the cursor moves, forwards, and not
past the end of the text. -/
theorem parse_emptyAux_shape :
    ∀ (n : Nat) (s : St), ∃ q, parse_emptyAux n s = { s with pos := q } ∧ s.pos ≤ q ∧
      (s.pos ≤ s.text.length → q ≤ s.text.length) := by
  intro n
  induction n with
  | zero => intro s; exact ⟨s.pos, rfl, le_refl _, fun h => h⟩
  | succ n ih =>
    intro s
    by_cases hlt : s.pos < s.text.length
    · simp only [parse_emptyAux, if_pos hlt]
      set line_end := (findFrom isnewline (s.text.drop s.pos) s.pos).getD (s.text.length - 1)
        with hle
      have hbound : s.pos ≤ line_end ∧ line_end + 1 ≤ s.text.length := by
        cases hf : findFrom isnewline (s.text.drop s.pos) s.pos with
        | none =>
          rw [hle, hf]
          simp only [Option.getD_none]
          omega
        | some j =>
          have := findFrom_some_bounds isnewline (s.text.drop s.pos) s.pos j hf
          rw [hle, hf]
          simp only [Option.getD_some]
          simp only [List.length_drop] at this
          omega
      by_cases hseg : sliceL s.text s.pos (line_end + 1) ≠ [] ∧
          (sliceL s.text s.pos (line_end + 1)).all isspacePy
      · rw [if_pos hseg]
        obtain ⟨q, heq, hge, hub⟩ := ih { s with pos := line_end + 1 }
        have hge2 : line_end + 1 ≤ q := hge
        refine ⟨q, heq, by omega, fun _ => hub hbound.2⟩
      · rw [if_neg hseg]
        exact ⟨s.pos, rfl, le_refl _, fun h => h⟩
    · simp only [parse_emptyAux, if_neg hlt]
      exact ⟨s.pos, rfl, le_refl _, fun h => h⟩

theorem parse_empty_shape (s : St) :
    ∃ q, parse_empty s = { s with pos := q } ∧ s.pos ≤ q ∧
      (s.pos ≤ s.text.length → q ≤ s.text.length) :=
  parse_emptyAux_shape (s.text.length + 1) s

theorem Pres.parse_empty (s : St) : Pres s (parse_empty s) := by
  obtain ⟨q, heq, _, hub⟩ := parse_empty_shape s
  rw [heq]
  exact ⟨rfl, fun _ h => h, hub⟩

theorem Pres.parse_comments (s : St) : Pres s (parse_comments s) :=
  Pres.presComp (Pres.parse_until isnewline s) (Pres.parse_empty _)

/-- Session preservation relation for the claim proofs: the text is unchanged,
an established indentation unit is never changed, and — when the text ends
with a newline, as guaranteed by the constructor — the cursor bound
`pos ≤ len` is preserved. -/
def Keep (s t : St) : Prop :=
  t.text = s.text ∧ (∀ u, s.indent_str = some u → t.indent_str = some u) ∧
    (s.text.getLast? = some '\n' → s.pos ≤ s.text.length → t.pos ≤ s.text.length)

/-- Preservation for the state carried by an outcome. -/
def ResKeep {α : Type} (s : St) (r : Res α) : Prop := Keep s r.after

theorem Keep.keepSelf (s : St) : Keep s s := ⟨rfl, fun _ h => h, fun _ h => h⟩

theorem Keep.keepComp {s t u : St} (h1 : Keep s t) (h2 : Keep t u) : Keep s u := by
  obtain ⟨a1, b1, c1⟩ := h1
  obtain ⟨a2, b2, c2⟩ := h2
  refine ⟨a2.trans a1, fun v hv => b2 v (b1 v hv), fun hnl h => ?_⟩
  have := c2 (by rw [a1]; exact hnl) (by rw [a1]; exact c1 hnl h)
  rwa [a1] at this

theorem Keep.of_pres {s t : St} (h : Pres s t) : Keep s t :=
  ⟨h.1, h.2.1, fun _ hp => h.2.2 hp⟩

/-- A character strictly before the final newline is not at the last index. -/
theorem succ_lt_of_not_newline (l : List Char) (i : Nat) (hnl : l.getLast? = some '\n')
    (hi : i < l.length) (hc : ¬(charAtD l i = '\n')) : i + 1 < l.length := by
  rcases Nat.lt_or_ge (i + 1) l.length with h | h
  · exact h
  · exfalso
    have hieq : i = l.length - 1 := by omega
    have hlast : l[l.length - 1]? = some '\n' := by
      rw [← List.getLast?_eq_getElem?]
      exact hnl
    have : charAtD l i = '\n' := by
      rw [hieq]
      have hlt : l.length - 1 < l.length := by omega
      simp only [charAtD]
      rw [List.getD_eq_getElem l _ hlt]
      have := List.getElem?_eq_getElem hlt
      rw [this] at hlast
      exact Option.some.inj hlast
    exact hc this

/-- A `parse_until` whose predicate accepts newlines stops strictly before the
end of a newline-terminated text. -/
theorem parse_until_lt_of_newline (p : Char → Bool) (s : St)
    (hnl : s.text.getLast? = some '\n') (hlt : s.pos < s.text.length)
    (hp : p '\n' = true) : (parse_until p s).pos < s.text.length := by
  have hlen1 : 1 ≤ s.text.length := by
    cases hl : s.text with
    | nil => rw [hl] at hnl; simp at hnl
    | cons a l => simp [hl]
  have hlast : s.text[s.text.length - 1]? = some '\n' := by
    rw [← List.getLast?_eq_getElem?]
    exact hnl
  have hdrop : (s.text.drop s.pos)[(s.text.length - 1) - s.pos]? = some '\n' := by
    rw [List.getElem?_drop]
    have : s.pos + (s.text.length - 1 - s.pos) = s.text.length - 1 := by omega
    rw [this]
    exact hlast
  have hstop := scanWhile_stop (fun c => !(p c)) (s.text.drop s.pos) s.pos
    (s.text.length - 1) (by omega) '\n' hdrop (by simp [hp])
  show scanWhile (fun c => !(p c)) (s.text.drop s.pos) s.pos < s.text.length
  omega

/-- `validate_indent` never moves the state. -/
theorem validate_indent_after (indent : List Char) (s : St) :
    (validate_indent indent s).after = s := by
  unfold validate_indent
  split <;> rfl

/-- `level_of_indent` never moves the state. -/
theorem level_of_indent_after (indent : List Char) (validate : Bool) (s : St) :
    (level_of_indent indent validate s).after = s := by
  unfold level_of_indent
  split
  · rfl
  · split <;> rfl

/-- Preservation through the error-propagating match pattern used throughout
the embedding. -/
theorem resKeep_match {α β : Type} {s : St} {x : Res α} {F : α → St → Res β}
    (hx : ResKeep s x) (hF : ∀ a t, x = .ok a t → ResKeep s (F a t)) :
    ResKeep s (match x with | .err e t => .err e t | .ok a t => F a t) := by
  cases x with
  | err e t => exact hx
  | ok a t => exact hF a t rfl

/-- Transport of preservation along a computed after-state. -/
theorem ResKeep.of_after_eq {α : Type} {s t : St} {x : Res α}
    (h : x.after = t) (hk : Keep s t) : ResKeep s x := by
  unfold ResKeep
  rw [h]
  exact hk

/-- After-state of a successful outcome. -/
theorem Res.after_of_ok {α : Type} {x : Res α} {a : α} {t : St}
    (h : x = Res.ok a t) : x.after = t := by
  subst h
  rfl

/-- After-state of a failed outcome. -/
theorem Res.after_of_err {α : Type} {x : Res α} {e : Err} {t : St}
    (h : x = Res.err e t) : x.after = t := by
  subst h
  rfl

/-- Preservation for `calc_indent_level`. -/
theorem calc_keep (validate : Bool) (s : St) : ResKeep s (calc_indent_level validate s) := by
  have h1 : Keep s (parse_while iswhitespace s) := Keep.of_pres (Pres.parse_while _ s)
  unfold calc_indent_level
  dsimp only
  split
  · exact Keep.keepSelf s
  · split
    · exact h1
    · cases hv : (if validate = true then
          validate_indent (sliceL (parse_while iswhitespace s).text s.pos
            (parse_while iswhitespace s).pos) (parse_while iswhitespace s)
          else Res.ok () (parse_while iswhitespace s)) with
      | err e s2 =>
        dsimp only
        have h2 : (Res.err e s2 : Res Unit).after = parse_while iswhitespace s := by
          rw [← hv]
          split
          · exact validate_indent_after _ _
          · rfl
        exact ResKeep.of_after_eq h2 h1
      | ok a s2 =>
        dsimp only
        have hts : s2 = parse_while iswhitespace s := by
          have h2 : (Res.ok a s2).after = parse_while iswhitespace s := by
            rw [← hv]
            split
            · exact validate_indent_after _ _
            · rfl
          exact h2
        have h3 : Keep s (if s2.indent_str = none then
            { s2 with indent_str := some (sliceL (parse_while iswhitespace s).text s.pos
                (parse_while iswhitespace s).pos) } else s2) := by
          subst hts
          split
          · rename_i hnone
            refine ⟨h1.1, fun u hu => ?_, h1.2.2⟩
            exfalso
            have := h1.2.1 u hu
            rw [this] at hnone
            cases hnone
          · exact h1
        cases hl : level_of_indent (sliceL (parse_while iswhitespace s).text s.pos
            (parse_while iswhitespace s).pos) validate
            (if s2.indent_str = none then
              { s2 with indent_str := some (sliceL (parse_while iswhitespace s).text s.pos
                  (parse_while iswhitespace s).pos) } else s2) with
        | err e s4 =>
          dsimp only
          have h4 := Res.after_of_err hl
          rw [level_of_indent_after] at h4
          exact ResKeep.of_after_eq (by rw [Res.after, h4] : (Res.err e s4 : Res Nat).after = _) h3
        | ok lvl s4 =>
          dsimp only
          have h4 := Res.after_of_ok hl
          rw [level_of_indent_after] at h4
          have ht4 : Keep s s4 := h4 ▸ h3
          split
          · exact ht4
          · exact ⟨ht4.1, ht4.2.1, fun _ h => h⟩

/-- Preservation for `check_for_document_begin` (the preamble flag may change;
text, indentation unit, and the cursor bound are preserved). -/
theorem check_doc_keep (s : St) : ResKeep s (check_for_document_begin s) := by
  have h1 : Keep s (parse_while iswhitespace (parse_empty s)) :=
    Keep.of_pres (Pres.presComp (Pres.parse_empty s) (Pres.parse_while _ _))
  unfold check_for_document_begin
  dsimp only
  split
  · exact Keep.keepSelf s
  · split
    · split
      · have h2 : Keep s (parse_while (fun d => decide (d = '='))
            (parse_while iswhitespace (parse_empty s))) :=
          Keep.keepComp h1 (Keep.of_pres (Pres.parse_while _ _))
        split
        · exact h2
        · have h3 : Keep s (parse_while iswhitespace (parse_while (fun d => decide (d = '='))
              (parse_while iswhitespace (parse_empty s)))) :=
            Keep.keepComp h2 (Keep.of_pres (Pres.parse_while _ _))
          split
          · exact ⟨h3.1, h3.2.1, h3.2.2⟩
          · exact ⟨h1.1, h1.2.1, fun _ h => h⟩
      · split
        · exact h1
        · exact ⟨h1.1, h1.2.1, fun _ h => h⟩
    · exact h1

/-- `parse_argEnd` never moves the state. -/
theorem parse_argEnd_after (close : Char) (required : Bool) (s : St) :
    (parse_argEnd close required s).after = s := by
  unfold parse_argEnd
  split <;> rfl

/-- `block_end` never moves the state. -/
theorem block_end_after (token_start : Nat) (body : List Char) (s : St) :
    (block_end token_start body s).after = s := by
  unfold block_end
  dsimp only
  split
  · rfl
  · rfl

/-- Shape of `parse_control_seq`: only the cursor moves, forwards, and not past
the end when it starts strictly inside the text. -/
theorem parse_control_seq_shape (u : St) :
    (parse_control_seq u).2.text = u.text ∧
    (parse_control_seq u).2.indent_str = u.indent_str ∧
    u.pos ≤ (parse_control_seq u).2.pos ∧
    (u.pos < u.text.length → (parse_control_seq u).2.pos ≤ u.text.length) := by
  have hge := parse_while_pos_ge Char.isAlpha u
  have hle := scanWhile_le Char.isAlpha (u.text.drop u.pos) u.pos
  simp only [List.length_drop] at hle
  have hpw : (parse_while Char.isAlpha u).pos =
      scanWhile Char.isAlpha (u.text.drop u.pos) u.pos := rfl
  by_cases hc : (parse_while Char.isAlpha u).pos = u.pos
  · unfold parse_control_seq
    dsimp only
    rw [if_pos hc]
    refine ⟨rfl, rfl, ?_, fun h => ?_⟩
    · show u.pos ≤ (parse_while Char.isAlpha u).pos + 1
      omega
    · show (parse_while Char.isAlpha u).pos + 1 ≤ u.text.length
      rw [hc]
      omega
  · unfold parse_control_seq
    dsimp only
    rw [if_neg hc]
    refine ⟨rfl, rfl, hge, fun h => ?_⟩
    show (parse_while Char.isAlpha u).pos ≤ u.text.length
    omega

/-- Preservation composes with a further run outcome. -/
theorem ResKeep.keepComp_keep {α : Type} {s t : St} {x : Res α}
    (h : Keep s t) (hx : ResKeep t x) : ResKeep s x := Keep.keepComp h hx

/-- Stepping the cursor one character forward from strictly inside the text. -/
theorem Keep.step1 {s t : St} (h : Keep s t) (hlt : t.pos < t.text.length) :
    Keep s { t with pos := t.pos + 1 } := by
  refine ⟨h.1, h.2.1, fun hnl hp => ?_⟩
  show t.pos + 1 ≤ s.text.length
  rw [← h.1]
  omega

/-- Preservation through `parse_control_seq` entered just past an escape
character that is not the final newline. -/
theorem Keep.control_seq {s t : St} (h : Keep s t) (hlt : t.pos < t.text.length)
    (hne : ¬(charAtD t.text t.pos = '\n')) :
    Keep s (parse_control_seq { t with pos := t.pos + 1 }).2 := by
  obtain ⟨htext, hind, _, hub⟩ := parse_control_seq_shape { t with pos := t.pos + 1 }
  refine ⟨htext.trans h.1, fun u hu => by rw [hind]; exact h.2.1 u hu, fun hnl hp => ?_⟩
  have hnl2 : t.text.getLast? = some '\n' := by rw [h.1]; exact hnl
  have hsucc : t.pos + 1 < t.text.length := succ_lt_of_not_newline t.text t.pos hnl2 hlt hne
  have := hub hsucc
  rw [← h.1]
  show (parse_control_seq { t with pos := t.pos + 1 }).2.pos ≤ t.text.length
  exact this

/-- Stepping the cursor one character forward from a position that is not the
end of the text. -/
theorem Keep.stepNe {s t : St} (h : Keep s t) (hne : ¬(t.pos = t.text.length)) :
    Keep s { t with pos := t.pos + 1 } := by
  refine ⟨h.1, h.2.1, fun hnl hp => ?_⟩
  show t.pos + 1 ≤ s.text.length
  have hb := h.2.2 hnl hp
  have : t.text.length = s.text.length := by rw [h.1]
  omega

/-- Preservation through `parse_control_seq` entered just past an escape
character that is neither at the end of the text nor the final newline. -/
theorem Keep.controlSeq {s t : St} (h : Keep s t) (hne_pos : ¬(t.pos = t.text.length))
    (hne : ¬(charAtD t.text t.pos = '\n')) :
    Keep s (parse_control_seq { t with pos := t.pos + 1 }).2 := by
  obtain ⟨htext, hind, _, hub⟩ := parse_control_seq_shape { t with pos := t.pos + 1 }
  refine ⟨htext.trans h.1, fun u hu => by rw [hind]; exact h.2.1 u hu, fun hnl hp => ?_⟩
  have hnl2 : t.text.getLast? = some '\n' := by rw [h.1]; exact hnl
  have hb := h.2.2 hnl hp
  have hlt : t.pos < t.text.length := by
    have : t.text.length = s.text.length := by rw [h.1]
    omega
  have hsucc : t.pos + 1 < t.text.length := succ_lt_of_not_newline t.text t.pos hnl2 hlt hne
  have := hub hsucc
  rw [← h.1]
  show (parse_control_seq { t with pos := t.pos + 1 }).2.pos ≤ t.text.length
  exact this

/-- Master preservation for the first mutual-recursion group: every run leaves
the text unchanged, never changes an established indentation unit, and — on
newline-terminated text — keeps the cursor within bounds, in both success and
error outcomes. -/
theorem run1_keep : ∀ (n : Nat) (r : Req1) (s : St), ResKeep s (run1 n r s) := by
  intro n
  induction n with
  | zero => intro r s; exact Keep.keepSelf s
  | succ n ih =>
    intro r s
    show ResKeep s (run1_body (run1 n) r s)
    cases r with
    | parseArg close required => exact ih _ s
    | parseArgs min_args max_args =>
      unfold run1_body
      dsimp only
      split
      · exact Keep.keepSelf s
      · exact ih _ s
    | doCommand cmd =>
      unfold run1_body
      dsimp only
      split
      · split
        · exact Keep.keepSelf s
        · exact Keep.keepSelf s
      · cases hargs : run1 n (.parseArgs none (some cmd.params.length)) s with
        | err e s1 =>
          have := ih (.parseArgs none (some cmd.params.length)) s
          rw [hargs] at this
          exact this
        | ok pr s1 =>
          have hk : Keep s s1 := by
            have := ih (.parseArgs none (some cmd.params.length)) s
            rw [hargs] at this
            exact this
          obtain ⟨args, argstr⟩ := pr
          dsimp only
          split
          · exact hk
          · exact hk
    | argLoop close required token_start body =>
      unfold run1_body
      dsimp only
      split
      · set s1 := parse_until
          (fun c => decide (c = '\\' ∨ c = close ∨ c = lbraceC ∨ c = '%')) s with hs1
        have h1 : Keep s s1 := Keep.of_pres (Pres.parse_until _ s)
        split
        · split
          · -- `{` branch
            rename_i hpos1 hlb
            have h2 : Keep s { s1 with pos := s1.pos + 1 } :=
              h1.stepNe (Nat.ne_of_lt hpos1)
            cases hr : run1 n (.parseArg rbraceC true) { s1 with pos := s1.pos + 1 } with
            | err e s2 =>
              have := ih (.parseArg rbraceC true) { s1 with pos := s1.pos + 1 }
              rw [hr] at this
              exact Keep.keepComp h2 this
            | ok r s2 =>
              have h3 : Keep s s2 := by
                have := ih (.parseArg rbraceC true) { s1 with pos := s1.pos + 1 }
                rw [hr] at this
                exact Keep.keepComp h2 this
              cases r with
              | none => exact h3
              | some a => exact ResKeep.keepComp_keep h3 (ih _ s2)
          · split
            · -- `\` branch
              rename_i hpos1 hlb hbs
              have hne : ¬(charAtD s1.text s1.pos = '\n') := by
                rw [hbs]
                decide
              have h2 : Keep s (parse_control_seq { s1 with pos := s1.pos + 1 }).2 :=
                h1.controlSeq (Nat.ne_of_lt hpos1) hne
              cases hcmd : commandsReg (parse_control_seq { s1 with pos := s1.pos + 1 }).1 with
              | some cmd =>
                dsimp only
                cases hdo : run1 n (.doCommand cmd)
                    (parse_control_seq { s1 with pos := s1.pos + 1 }).2 with
                | err e s3 =>
                  have := ih (.doCommand cmd) (parse_control_seq { s1 with pos := s1.pos + 1 }).2
                  rw [hdo] at this
                  exact Keep.keepComp h2 this
                | ok out s3 =>
                  have h3 : Keep s s3 := by
                    have := ih (.doCommand cmd) (parse_control_seq { s1 with pos := s1.pos + 1 }).2
                    rw [hdo] at this
                    exact Keep.keepComp h2 this
                  exact ResKeep.keepComp_keep h3 (ih _ s3)
              | none =>
                dsimp only
                cases hargs : run1 n (.parseArgs none none)
                    (parse_control_seq { s1 with pos := s1.pos + 1 }).2 with
                | err e s3 =>
                  have := ih (.parseArgs none none)
                    (parse_control_seq { s1 with pos := s1.pos + 1 }).2
                  rw [hargs] at this
                  exact Keep.keepComp h2 this
                | ok pr s3 =>
                  have h3 : Keep s s3 := by
                    have := ih (.parseArgs none none)
                      (parse_control_seq { s1 with pos := s1.pos + 1 }).2
                    rw [hargs] at this
                    exact Keep.keepComp h2 this
                  obtain ⟨args, argstr⟩ := pr
                  dsimp only
                  have h4 : Keep s (parse_while iswhitespace s3) :=
                    Keep.keepComp h3 (Keep.of_pres (Pres.parse_while _ _))
                  split
                  · rename_i hcol
                    exact h4.stepNe (Nat.ne_of_lt hcol.1)
                  · exact ResKeep.keepComp_keep h4 (ih _ _)
            · split
              · -- closing character branch
                rename_i hpos1 hlb hbs hcl
                exact h1.stepNe (Nat.ne_of_lt hpos1)
              · -- `%` branch
                have h2 : Keep s (parse_comments s1) :=
                  Keep.keepComp h1 (Keep.of_pres (Pres.parse_comments _))
                exact ResKeep.keepComp_keep h2 (ih _ _)
        · exact ResKeep.of_after_eq (parse_argEnd_after _ _ _) h1
      · exact ResKeep.of_after_eq (parse_argEnd_after _ _ _) (Keep.keepSelf s)
    | argsLoop min_args max_args args parse_start nargs =>
      unfold run1_body
      dsimp only
      set s1 := parse_while iswhitespace s with hs1
      have h1 : Keep s s1 := Keep.of_pres (Pres.parse_while _ s)
      split
      · exact h1
      · split
        · -- `{` branch
          rename_i hne hlb
          have h2 : Keep s { s1 with pos := s1.pos + 1 } := h1.stepNe hne
          cases hr : run1 n (.parseArg rbraceC true) { s1 with pos := s1.pos + 1 } with
          | err e s2 =>
            have := ih (.parseArg rbraceC true) { s1 with pos := s1.pos + 1 }
            rw [hr] at this
            exact Keep.keepComp h2 this
          | ok r s2 =>
            have h3 : Keep s s2 := by
              have := ih (.parseArg rbraceC true) { s1 with pos := s1.pos + 1 }
              rw [hr] at this
              exact Keep.keepComp h2 this
            dsimp only
            split
            · exact h3
            · exact ResKeep.keepComp_keep h3 (ih _ s2)
        · split
          · -- `[` branch
            rename_i hne hlb hbr
            have h2 : Keep s { s1 with pos := s1.pos + 1 } := h1.stepNe hne
            cases hr : run1 n (.parseArg ']' false) { s1 with pos := s1.pos + 1 } with
            | err e s2 =>
              have := ih (.parseArg ']' false) { s1 with pos := s1.pos + 1 }
              rw [hr] at this
              exact Keep.keepComp h2 this
            | ok r s2 =>
              have h3 : Keep s s2 := by
                have := ih (.parseArg ']' false) { s1 with pos := s1.pos + 1 }
                rw [hr] at this
                exact Keep.keepComp h2 this
              cases r with
              | some a =>
                dsimp only
                split
                · exact h3
                · exact ResKeep.keepComp_keep h3 (ih _ s2)
              | none =>
                refine ⟨h3.1, h3.2.1, fun hnl hp => ?_⟩
                show s1.pos ≤ s.text.length
                have := h1.2.2 hnl hp
                exact this
          · split
            · exact h1
            · exact h1

/-- Master preservation for the second mutual-recursion group, in the same
sense as for the first group. -/
theorem run2_keep : ∀ (n : Nat) (r : Req2) (s : St), ResKeep s (run2 n r s) := by
  intro n
  induction n with
  | zero => intro r s; exact Keep.keepSelf s
  | succ n ih =>
    intro r s
    show ResKeep s (run2_body n (run2 n) r s)
    cases r with
    | parseBlock is_raw =>
      unfold run2_body
      dsimp only
      have h1 : Keep s (parse_empty s) := Keep.of_pres (Pres.parse_empty s)
      cases hc : calc_indent_level (!is_raw) (parse_empty s) with
      | err e s2 =>
        have := calc_keep (!is_raw) (parse_empty s)
        rw [hc] at this
        exact Keep.keepComp h1 this
      | ok lvl s2 =>
        have h2 : Keep s s2 := by
          have := calc_keep (!is_raw) (parse_empty s)
          rw [hc] at this
          exact Keep.keepComp h1 this
        dsimp only
        split
        · exact h2
        · exact ResKeep.keepComp_keep (⟨h2.1, h2.2.1, h2.2.2⟩ :
            Keep s { s2 with indent_level := (lvl : Int) }) (ih _ _)
    | blockLoop is_raw prev token_start body =>
      unfold run2_body
      dsimp only
      split
      · exact ResKeep.of_after_eq (block_end_after _ _ _) (Keep.keepSelf s)
      · cases hcd : check_for_document_begin s with
        | err e s1 =>
          have := check_doc_keep s
          rw [hcd] at this
          exact this
        | ok b s1 =>
          have h1 : Keep s s1 := by
            have := check_doc_keep s
            rw [hcd] at this
            exact this
          cases b with
          | true =>
            dsimp only
            have h2 : Keep s { s1 with indent_level := -1 } := ⟨h1.1, h1.2.1, h1.2.2⟩
            cases hpb : run2 n (.parseBlock false) { s1 with indent_level := -1 } with
            | err e s3 =>
              have := ih (.parseBlock false) { s1 with indent_level := -1 }
              rw [hpb] at this
              exact Keep.keepComp h2 this
            | ok inner s3 =>
              have := ih (.parseBlock false) { s1 with indent_level := -1 }
              rw [hpb] at this
              exact Keep.keepComp h2 this
          | false =>
            dsimp only
            set s2 := parse_until (fun c => decide (c = '\n') ||
              (!is_raw && (decide (c = '\\') || decide (c = '%')))) s1 with hs2
            have h2 : Keep s s2 := Keep.keepComp h1 (Keep.of_pres (Pres.parse_until _ _))
            split
            · exact ResKeep.of_after_eq (block_end_after _ _ _) h2
            · split
              · -- newline branch
                rename_i hne hnl2
                have h3 : Keep s (parse_empty s2) :=
                  Keep.keepComp h2 (Keep.of_pres (Pres.parse_empty _))
                cases hcal : calc_indent_level (!is_raw) (parse_empty s2) with
                | err e s4 =>
                  have := calc_keep (!is_raw) (parse_empty s2)
                  rw [hcal] at this
                  exact Keep.keepComp h3 this
                | ok il s4 =>
                  have h4 : Keep s s4 := by
                    have := calc_keep (!is_raw) (parse_empty s2)
                    rw [hcal] at this
                    exact Keep.keepComp h3 this
                  dsimp only
                  split
                  · exact h4
                  · split
                    · refine ⟨h4.1, h4.2.1, fun hnl hp => ?_⟩
                      show s2.pos + 1 ≤ s.text.length
                      have hb := h2.2.2 hnl hp
                      have hlen : s2.text.length = s.text.length := by rw [h2.1]
                      rename_i hfin _ _
                      omega
                    · exact ResKeep.keepComp_keep h4 (ih _ _)
              · split
                · -- escape branch
                  rename_i hfin hnl2 hbs
                  have hne : ¬(charAtD s2.text s2.pos = '\n') := by
                    rw [hbs]
                    decide
                  have h3 : Keep s (parse_control_seq { s2 with pos := s2.pos + 1 }).2 :=
                    h2.controlSeq hfin hne
                  cases hcmd : commandsReg (parse_control_seq
                      { s2 with pos := s2.pos + 1 }).1 with
                  | some cmd =>
                    dsimp only
                    cases hdo : run1 n (.doCommand cmd)
                        (parse_control_seq { s2 with pos := s2.pos + 1 }).2 with
                    | err e s4 =>
                      have := run1_keep n (.doCommand cmd)
                        (parse_control_seq { s2 with pos := s2.pos + 1 }).2
                      rw [hdo] at this
                      exact Keep.keepComp h3 this
                    | ok out s4 =>
                      have h4 : Keep s s4 := by
                        have := run1_keep n (.doCommand cmd)
                          (parse_control_seq { s2 with pos := s2.pos + 1 }).2
                        rw [hdo] at this
                        exact Keep.keepComp h3 this
                      exact ResKeep.keepComp_keep h4 (ih _ _)
                  | none =>
                    dsimp only
                    cases hargs : run1 n (.parseArgs none none)
                        (parse_control_seq { s2 with pos := s2.pos + 1 }).2 with
                    | err e s4 =>
                      have := run1_keep n (.parseArgs none none)
                        (parse_control_seq { s2 with pos := s2.pos + 1 }).2
                      rw [hargs] at this
                      exact Keep.keepComp h3 this
                    | ok pr s4 =>
                      have h4 : Keep s s4 := by
                        have := run1_keep n (.parseArgs none none)
                          (parse_control_seq { s2 with pos := s2.pos + 1 }).2
                        rw [hargs] at this
                        exact Keep.keepComp h3 this
                      obtain ⟨args, argstr⟩ := pr
                      dsimp only
                      have h5 : Keep s (parse_while iswhitespace s4) :=
                        Keep.keepComp h4 (Keep.of_pres (Pres.parse_while _ _))
                      split
                      · -- colon: a nested environment
                        rename_i hcol
                        have h6 : Keep s { parse_while iswhitespace s4 with
                            pos := (parse_while iswhitespace s4).pos + 1 } :=
                          h5.stepNe (Nat.ne_of_lt hcol.1)
                        cases hde : run2 n (.doEnv
                            (match environmentsReg (parse_control_seq
                              { s2 with pos := s2.pos + 1 }).1 with
                             | some e => EnvOrName.reg e
                             | none => EnvOrName.name (parse_control_seq
                                { s2 with pos := s2.pos + 1 }).1)
                            args argstr (prev + 1))
                            { parse_while iswhitespace s4 with
                              pos := (parse_while iswhitespace s4).pos + 1 } with
                        | err e s7 =>
                          have := ih (.doEnv
                            (match environmentsReg (parse_control_seq
                              { s2 with pos := s2.pos + 1 }).1 with
                             | some e => EnvOrName.reg e
                             | none => EnvOrName.name (parse_control_seq
                                { s2 with pos := s2.pos + 1 }).1)
                            args argstr (prev + 1))
                            { parse_while iswhitespace s4 with
                              pos := (parse_while iswhitespace s4).pos + 1 }
                          rw [hde] at this
                          exact Keep.keepComp h6 this
                        | ok envOut s7 =>
                          have h7 : Keep s s7 := by
                            have := ih (.doEnv
                              (match environmentsReg (parse_control_seq
                                { s2 with pos := s2.pos + 1 }).1 with
                               | some e => EnvOrName.reg e
                               | none => EnvOrName.name (parse_control_seq
                                  { s2 with pos := s2.pos + 1 }).1)
                              args argstr (prev + 1))
                              { parse_while iswhitespace s4 with
                                pos := (parse_while iswhitespace s4).pos + 1 }
                            rw [hde] at this
                            exact Keep.keepComp h6 this
                          dsimp only
                          split
                          · exact h7
                          · cases hcal2 : calc_indent_level (!is_raw) s7 with
                            | err e s8 =>
                              have := calc_keep (!is_raw) s7
                              rw [hcal2] at this
                              exact Keep.keepComp h7 this
                            | ok il s8 =>
                              have h8 : Keep s s8 := by
                                have := calc_keep (!is_raw) s7
                                rw [hcal2] at this
                                exact Keep.keepComp h7 this
                              dsimp only
                              split
                              · exact h8
                              · exact ResKeep.keepComp_keep h8 (ih _ _)
                      · exact ResKeep.keepComp_keep h5 (ih _ _)
                · -- comment branch
                  have h3 : Keep s (parse_comments s2) :=
                    Keep.keepComp h2 (Keep.of_pres (Pres.parse_comments _))
                  exact ResKeep.keepComp_keep h3 (ih _ _)
    | doEnv env args argstr outer_indent =>
      unfold run2_body
      dsimp only
      cases env with
      | reg envObj =>
        dsimp only
        set s1 := parse_while iswhitespace s with hs1
        have h1 : Keep s s1 := Keep.of_pres (Pres.parse_while _ s)
        by_cases hfin : s1.pos = s1.text.length
        · rw [if_pos hfin]
          dsimp only
          cases envObj.translate (s1.text.drop s.pos) args <;> exact h1
        · rw [if_neg hfin]
          by_cases hnlc : charAtD s1.text s1.pos = '\n'
          · rw [if_pos hnlc]
            cases hpb : run2 n (.parseBlock envObj.is_raw) s1 with
            | err e s2 =>
              dsimp only
              have := ih (.parseBlock envObj.is_raw) s1
              rw [hpb] at this
              exact Keep.keepComp h1 this
            | ok b s2 =>
              have h2 : Keep s s2 := by
                have := ih (.parseBlock envObj.is_raw) s1
                rw [hpb] at this
                exact Keep.keepComp h1 this
              dsimp only
              by_cases hoi : outer_indent > 0
              · rw [if_pos hoi]
                cases s2.indent_str with
                | none => dsimp only; exact h2
                | some u =>
                  dsimp only
                  cases envObj.translate (b ++ mulList u outer_indent.toNat) args <;> exact h2
              · rw [if_neg hoi]
                dsimp only
                cases envObj.translate b args <;> exact h2
          · rw [if_neg hnlc]
            cases hol : run2 n (.oneLiner s.pos []) s1 with
            | err e s2 =>
              dsimp only
              have := ih (.oneLiner s.pos []) s1
              rw [hol] at this
              exact Keep.keepComp h1 this
            | ok pr s2 =>
              have h2 : Keep s s2 := by
                have := ih (.oneLiner s.pos []) s1
                rw [hol] at this
                exact Keep.keepComp h1 this
              obtain ⟨bd, pe⟩ := pr
              dsimp only
              cases envObj.translate bd args <;> exact h2
      | name nm =>
        dsimp only
        set s1 := parse_while iswhitespace s with hs1
        have h1 : Keep s s1 := Keep.of_pres (Pres.parse_while _ s)
        by_cases hfin : s1.pos = s1.text.length
        · rw [if_pos hfin]
          dsimp only
          exact h1
        · rw [if_neg hfin]
          by_cases hnlc : charAtD s1.text s1.pos = '\n'
          · rw [if_pos hnlc]
            cases hpb : run2 n (.parseBlock false) s1 with
            | err e s2 =>
              dsimp only
              have := ih (.parseBlock false) s1
              rw [hpb] at this
              exact Keep.keepComp h1 this
            | ok b s2 =>
              have h2 : Keep s s2 := by
                have := ih (.parseBlock false) s1
                rw [hpb] at this
                exact Keep.keepComp h1 this
              dsimp only
              by_cases hoi : outer_indent > 0
              · rw [if_pos hoi]
                cases s2.indent_str with
                | none => dsimp only; exact h2
                | some u => dsimp only; exact h2
              · rw [if_neg hoi]
                dsimp only
                exact h2
          · rw [if_neg hnlc]
            cases hol : run2 n (.oneLiner s.pos []) s1 with
            | err e s2 =>
              dsimp only
              have := ih (.oneLiner s.pos []) s1
              rw [hol] at this
              exact Keep.keepComp h1 this
            | ok pr s2 =>
              have h2 : Keep s s2 := by
                have := ih (.oneLiner s.pos []) s1
                rw [hol] at this
                exact Keep.keepComp h1 this
              obtain ⟨bd, pe⟩ := pr
              dsimp only
              exact h2
    | oneLiner token_start body =>
      unfold run2_body
      dsimp only
      split
      · rename_i hguard
        set s1 := parse_until (fun c => decide (c = '\n' ∨ c = '\\' ∨ c = '%')) s with hs1
        have h1 : Keep s s1 := Keep.of_pres (Pres.parse_until _ s)
        split
        · refine ⟨h1.1, h1.2.1, fun hnl hp => ?_⟩
          show s1.pos + 1 ≤ s.text.length
          have hlt := parse_until_lt_of_newline
            (fun c => decide (c = '\n' ∨ c = '\\' ∨ c = '%')) s hnl hguard (by decide)
          rw [← hs1] at hlt
          omega
        · split
          · -- escape branch
            rename_i hcase hbs
            have hfin : ¬(s1.pos = s1.text.length) := by
              intro h
              exact hcase (Or.inl h)
            have hne : ¬(charAtD s1.text s1.pos = '\n') := by
              rw [hbs]
              decide
            have h2 : Keep s (parse_control_seq { s1 with pos := s1.pos + 1 }).2 :=
              h1.controlSeq hfin hne
            cases hcmd : commandsReg (parse_control_seq { s1 with pos := s1.pos + 1 }).1 with
            | some cmd =>
              dsimp only
              cases hdo : run1 n (.doCommand cmd)
                  (parse_control_seq { s1 with pos := s1.pos + 1 }).2 with
              | err e s3 =>
                have := run1_keep n (.doCommand cmd)
                  (parse_control_seq { s1 with pos := s1.pos + 1 }).2
                rw [hdo] at this
                exact Keep.keepComp h2 this
              | ok out s3 =>
                have h3 : Keep s s3 := by
                  have := run1_keep n (.doCommand cmd)
                    (parse_control_seq { s1 with pos := s1.pos + 1 }).2
                  rw [hdo] at this
                  exact Keep.keepComp h2 this
                exact ResKeep.keepComp_keep h3 (ih _ _)
            | none =>
              dsimp only
              cases hargs : run1 n (.parseArgs none none)
                  (parse_control_seq { s1 with pos := s1.pos + 1 }).2 with
              | err e s3 =>
                have := run1_keep n (.parseArgs none none)
                  (parse_control_seq { s1 with pos := s1.pos + 1 }).2
                rw [hargs] at this
                exact Keep.keepComp h2 this
              | ok pr s3 =>
                have h3 : Keep s s3 := by
                  have := run1_keep n (.parseArgs none none)
                    (parse_control_seq { s1 with pos := s1.pos + 1 }).2
                  rw [hargs] at this
                  exact Keep.keepComp h2 this
                obtain ⟨args2, argstr2⟩ := pr
                dsimp only
                have h4 : Keep s (parse_while iswhitespace s3) :=
                  Keep.keepComp h3 (Keep.of_pres (Pres.parse_while _ _))
                exact ResKeep.keepComp_keep h4 (ih _ _)
          · -- comment branch
            have h2 : Keep s (parse_comments s1) :=
              Keep.keepComp h1 (Keep.of_pres (Pres.parse_comments _))
            exact h2
      · exact Keep.keepSelf s

/-- The constructor's normalization makes the text end with a newline. -/
theorem normalizeText_getLast (input : List Char) :
    (normalizeText input).getLast? = some '\n' := by
  unfold normalizeText
  split
  · exact List.getLast?_concat _
  · rename_i h
    push_neg at h
    exact h.2

/-- C10: throughout every translation session the cursor position satisfies
`0 ≤ pos ≤ len(text)`: the constructor normalizes the input to end with a
newline and starts the cursor at 0 within bounds, and on such text every
operation of both mutual-recursion groups (hence every parsing operation of
the session, including the unconditional increments after a control symbol
and after a one-liner's terminating newline) preserves the bound, whether it
returns normally or raises. -/
theorem C10_cursor_bound :
    (∀ (input : List Char), (Translator.init input).pos = 0 ∧
      (Translator.init input).text.getLast? = some '\n' ∧
      (Translator.init input).pos ≤ (Translator.init input).text.length) ∧
    (∀ (n : Nat) (r : Req1) (s : St), s.text.getLast? = some '\n' →
      s.pos ≤ s.text.length →
      ((run1 n r s).after).pos ≤ ((run1 n r s).after).text.length) ∧
    (∀ (n : Nat) (r : Req2) (s : St), s.text.getLast? = some '\n' →
      s.pos ≤ s.text.length →
      ((run2 n r s).after).pos ≤ ((run2 n r s).after).text.length) := by
  refine ⟨fun input => ⟨rfl, normalizeText_getLast input, by simp [Translator.init]⟩, ?_, ?_⟩
  · intro n r s hnl hp
    obtain ⟨ht, _, hb⟩ := run1_keep n r s
    rw [ht]
    exact hb hnl hp
  · intro n r s hnl hp
    obtain ⟨ht, _, hb⟩ := run2_keep n r s
    rw [ht]
    exact hb hnl hp

/-- C10 witness: a concrete bounded run (a block parse of `\foo{a}\n` from a
freshly constructed translator keeps the cursor within the 8-character text). -/
theorem C10_cursor_bound_witness :
    ((run2 10 (.parseBlock false) (Translator.init (s2l "\\foo\x7ba\x7d\n"))).after).pos ≤
      ((run2 10 (.parseBlock false) (Translator.init (s2l "\\foo\x7ba\x7d\n"))).after).text.length :=
  C10_cursor_bound.2.2 10 (.parseBlock false) (Translator.init (s2l "\\foo\x7ba\x7d\n"))
    (by decide) (by decide)

/-- Skipping a failing prefix in `findFrom`. -/
theorem findFrom_append_false (p : Char → Bool) :
    ∀ (u v : List Char) (i : Nat), (∀ x ∈ u, p x = false) →
      findFrom p (u ++ v) i = findFrom p v (i + u.length) := by
  intro u
  induction u with
  | nil => intro v i _; simp
  | cons x rest ih =>
    intro v i hall
    have hx : p x = false := hall x (by simp)
    have step : findFrom p ((x :: rest) ++ v) i = findFrom p (rest ++ v) (i + 1) := by
      show findFrom p (x :: (rest ++ v)) i = _
      simp [findFrom, hx]
    rw [step, ih v (i + 1) (fun d hd => hall d (by simp [hd]))]
    congr 1
    simp only [List.length_cons]
    omega

/-- A position with a nonempty drop is strictly inside the list. -/
theorem pos_lt_of_drop {α : Type} (l : List α) (n : Nat) (x : α) (rest : List α)
    (h : l.drop n = x :: rest) : n < l.length := by
  by_contra hc
  push_neg at hc
  rw [List.drop_eq_nil_of_le hc] at h
  cases h

/-- Character read off a drop decomposition. -/
theorem charAtD_of_drop (l : List Char) (p : Nat) (w : List Char) (c : Char) (r : List Char)
    (h : l.drop p = w ++ c :: r) : charAtD l (p + w.length) = c := by
  have h1 : l[p + w.length]? = some c := by
    rw [← List.getElem?_drop, h, List.getElem?_append_right (le_refl w.length)]
    simp
  simp only [charAtD, List.getD_eq_getElem?_getD, h1, Option.getD_some]

/-- Slice read off a drop decomposition. -/
theorem sliceL_of_drop (l : List Char) (p : Nat) (w v : List Char)
    (h : l.drop p = w ++ v) : sliceL l p (p + w.length) = w := by
  unfold sliceL
  rw [List.drop_take]
  have h2 : p + w.length - p = w.length := by omega
  rw [h2, h, List.take_left]

/-- Evaluation of `parse_while` on a decomposed suffix. -/
theorem parse_while_of_drop (p : Char → Bool) (s : St) (w : List Char) (c : Char)
    (r : List Char) (hs : s.text.drop s.pos = w ++ c :: r)
    (hw : ∀ x ∈ w, p x = true) (hc : p c = false) :
    parse_while p s = { s with pos := s.pos + w.length } := by
  unfold parse_while
  have : scanWhile p (s.text.drop s.pos) s.pos = s.pos + w.length := by
    rw [hs, scanWhile_append_all p w (c :: r) s.pos hw,
      scanWhile_cons_false p c r (s.pos + w.length) hc]
  rw [this]

/-- `parse_empty` does not move on a line that contains a non-space character
before its newline. -/
theorem parse_empty_noop (s : St) (w : List Char) (c : Char) (r : List Char)
    (hs : s.text.drop s.pos = w ++ c :: r)
    (hw : ∀ x ∈ w, iswhitespace x = true) (hc : isspacePy c = false) :
    parse_empty s = s := by
  have hlt : s.pos < s.text.length := by
    by_contra hcon
    push_neg at hcon
    rw [List.drop_eq_nil_of_le hcon] at hs
    exact absurd hs.symm (by simp)
  have hdl : (s.text.drop s.pos).length = s.text.length - s.pos := by simp
  have hwnl : ∀ x ∈ w, isnewline x = false := by
    intro x hx
    have := hw x hx
    unfold iswhitespace at this
    simp only [Bool.and_eq_true, Bool.not_eq_true'] at this
    exact this.2
  have hcnl : isnewline c = false := by
    unfold isnewline
    simp only [decide_eq_false_iff_not]
    intro hcc
    rw [hcc] at hc
    simp [isspacePy] at hc
  have hle : s.pos + w.length ≤ (findFrom isnewline (s.text.drop s.pos) s.pos).getD
      (s.text.length - 1) := by
    rw [hs, findFrom_append_false isnewline w (c :: r) s.pos hwnl]
    have step : findFrom isnewline (c :: r) (s.pos + w.length) =
        findFrom isnewline r (s.pos + w.length + 1) := by
      simp [findFrom, hcnl]
    rw [step]
    cases hf : findFrom isnewline r (s.pos + w.length + 1) with
    | none =>
      simp only [Option.getD_none]
      have hlen : s.text.length - s.pos = w.length + 1 + r.length := by
        rw [← hdl, hs]
        simp
        omega
      omega
    | some j =>
      have := findFrom_some_bounds isnewline r (s.pos + w.length + 1) j hf
      simp only [Option.getD_some]
      omega
  unfold parse_empty parse_emptyAux
  rw [if_pos hlt]
  have hseg : ¬(sliceL s.text s.pos
      (((findFrom isnewline (s.text.drop s.pos) s.pos).getD (s.text.length - 1)) + 1) ≠ [] ∧
      (sliceL s.text s.pos
        (((findFrom isnewline (s.text.drop s.pos) s.pos).getD (s.text.length - 1)) + 1)).all
        isspacePy) := by
    intro hcon
    set le := (findFrom isnewline (s.text.drop s.pos) s.pos).getD (s.text.length - 1) with hle2
    have hk : le + 1 - s.pos = w.length + 1 + (le - s.pos - w.length) := by omega
    have hsliceeq : sliceL s.text s.pos (le + 1) =
        w ++ c :: (r.take (le - s.pos - w.length)) := by
      unfold sliceL
      rw [List.drop_take]
      have h2 : le + 1 - s.pos = w.length + (1 + (le - s.pos - w.length)) := by omega
      rw [h2, hs, List.take_append]
      congr 1
      rw [Nat.add_comm]
      rfl
    have := hcon.2
    rw [hsliceeq] at this
    simp only [List.all_append, List.all_cons, Bool.and_eq_true] at this
    rw [hc] at this
    simp at this
  rw [if_neg hseg]

/-- Dropping past a known prefix. -/
theorem drop_of_drop (l : List Char) (p : Nat) (w tail : List Char)
    (h : l.drop p = w ++ tail) : l.drop (p + w.length) = tail := by
  have h2 := List.drop_drop w.length p l
  rw [h, List.drop_left] at h2
  exact h2.symm

/-- Strict bound for the position of the first content character. -/
theorem content_lt_of_drop (l : List Char) (p : Nat) (w : List Char) (c : Char)
    (r : List Char) (h : l.drop p = w ++ c :: r) : p + w.length < l.length := by
  have hdl : (l.drop p).length = l.length - p := by simp
  rw [h] at hdl
  simp only [List.length_append, List.length_cons] at hdl
  omega

/-- A non-space content character is not picked up by `iswhitespace`. -/
theorem iswhitespace_false_of_not_space (c : Char) (hc : isspacePy c = false) :
    iswhitespace c = false := by
  unfold iswhitespace
  rw [hc]
  rfl

/-- `check_for_document_begin` on a root-level preamble content line whose
first non-whitespace character is not `=`, `\`, `%`: the invalid-preamble
error, raised with the cursor at that character. -/
theorem check_doc_invalid (s : St) (w : List Char) (c : Char) (r : List Char)
    (hlvl : s.indent_level = 0) (hpre : s.preamble = true)
    (hs : s.text.drop s.pos = w ++ c :: r)
    (hw : ∀ x ∈ w, iswhitespace x = true) (hc : isspacePy c = false)
    (hne : ¬(c = '=' ∨ c = '\\' ∨ c = '%')) :
    check_for_document_begin s =
      .err (.trans (s2l "Preamble lines must start with \\.")) { s with pos := s.pos + w.length } := by
  have hnoop : parse_empty s = s := parse_empty_noop s w c r hs hw hc
  have hpw : parse_while iswhitespace s = { s with pos := s.pos + w.length } :=
    parse_while_of_drop iswhitespace s w c r hs hw (iswhitespace_false_of_not_space c hc)
  have hlt : s.pos + w.length < s.text.length := content_lt_of_drop _ _ _ _ _ hs
  have hchar : charAtD s.text (s.pos + w.length) = c := charAtD_of_drop _ _ _ _ _ hs
  have hcnl : ¬(c = '\n') := by
    intro hcc
    rw [hcc] at hc
    simp [isspacePy] at hc
  unfold check_for_document_begin
  rw [if_neg (by rw [hlvl, hpre]; simp)]
  dsimp only
  rw [hnoop, hpw]
  dsimp only
  rw [if_pos hlt, hchar]
  have hfinal : ¬(c = '\\' ∨ c = '%' ∨ c = '\n') := by
    intro hor
    rcases hor with h | h | h
    · exact hne (Or.inr (Or.inl h))
    · exact hne (Or.inr (Or.inr h))
    · exact hcnl h
  rw [if_neg (fun hEq => hne (Or.inl hEq))]
  rw [if_pos hfinal]

/-- Every character of a replicated list satisfies equality with its element. -/
theorem replicate_all_eq (k : Nat) :
    ∀ x ∈ List.replicate k '=', (fun d => decide (d = '=')) x = true := by
  intro x hx
  have := List.eq_of_mem_replicate hx
  simp [this]

/-- `check_for_document_begin` on a root-level preamble line whose `=` run is
shorter than three: the length-specific separator error. -/
theorem check_doc_short (s : St) (w : List Char) (k : Nat) (d : Char) (r : List Char)
    (hlvl : s.indent_level = 0) (hpre : s.preamble = true)
    (hs : s.text.drop s.pos = w ++ List.replicate (k + 1) '=' ++ d :: r)
    (hw : ∀ x ∈ w, iswhitespace x = true) (hk : k + 1 < 3) (hd : ¬(d = '=')) :
    check_for_document_begin s =
      .err (.trans (s2l "Separator indicating start of document must be at least '===' (3 equal signs).")) { s with pos := s.pos + w.length + (k + 1) } := by
  have hs1 : s.text.drop s.pos = w ++ '=' :: (List.replicate k '=' ++ d :: r) := by
    rw [hs]
    simp [List.replicate_succ]
  have hnoop : parse_empty s = s :=
    parse_empty_noop s w '=' (List.replicate k '=' ++ d :: r) hs1 hw (by decide)
  have hpw : parse_while iswhitespace s = { s with pos := s.pos + w.length } :=
    parse_while_of_drop iswhitespace s w '=' (List.replicate k '=' ++ d :: r) hs1 hw (by decide)
  have hlt : s.pos + w.length < s.text.length := content_lt_of_drop _ _ _ _ _ hs1
  have hchar : charAtD s.text (s.pos + w.length) = '=' := charAtD_of_drop _ _ _ _ _ hs1
  have hdropP : s.text.drop (s.pos + w.length) = List.replicate (k + 1) '=' ++ d :: r := by
    have := drop_of_drop s.text s.pos w (List.replicate (k + 1) '=' ++ d :: r)
      (by rw [hs]; simp)
    exact this
  have hpw2 : parse_while (fun d => decide (d = '=')) { s with pos := s.pos + w.length } =
      { s with pos := s.pos + w.length + (k + 1) } := by
    have := parse_while_of_drop (fun x => decide (x = '=')) { s with pos := s.pos + w.length }
      (List.replicate (k + 1) '=') d r (by exact hdropP) (replicate_all_eq (k + 1))
      (by simp [hd])
    rw [this]
    simp
  unfold check_for_document_begin
  rw [if_neg (by rw [hlvl, hpre]; simp)]
  dsimp only
  rw [hnoop, hpw]
  dsimp only
  rw [if_pos hlt, hchar]
  rw [if_pos rfl]
  rw [hpw2]
  dsimp only
  rw [if_pos (by omega)]

/-- `check_for_document_begin` on a genuine separator line: preamble mode is
left and the cursor stops at the end of the trailing whitespace. -/
theorem check_doc_sep (s : St) (w : List Char) (k : Nat) (w2 r : List Char)
    (hlvl : s.indent_level = 0) (hpre : s.preamble = true)
    (hs : s.text.drop s.pos = w ++ List.replicate (k + 3) '=' ++ w2 ++ '\n' :: r)
    (hw : ∀ x ∈ w, iswhitespace x = true) (hw2 : ∀ x ∈ w2, iswhitespace x = true) :
    check_for_document_begin s =
      .ok true { s with pos := s.pos + w.length + (k + 3) + w2.length, preamble := false } := by
  have hs1 : s.text.drop s.pos =
      w ++ '=' :: (List.replicate (k + 2) '=' ++ w2 ++ '\n' :: r) := by
    rw [hs]
    simp [List.replicate_succ]
  have hnoop : parse_empty s = s :=
    parse_empty_noop s w '=' (List.replicate (k + 2) '=' ++ w2 ++ '\n' :: r) hs1 hw (by decide)
  have hpw : parse_while iswhitespace s = { s with pos := s.pos + w.length } :=
    parse_while_of_drop iswhitespace s w '='
      (List.replicate (k + 2) '=' ++ w2 ++ '\n' :: r) hs1 hw (by decide)
  have hlt : s.pos + w.length < s.text.length := content_lt_of_drop _ _ _ _ _ hs1
  have hchar : charAtD s.text (s.pos + w.length) = '=' := charAtD_of_drop _ _ _ _ _ hs1
  have hdropP : s.text.drop (s.pos + w.length) = List.replicate (k + 3) '=' ++ (w2 ++ '\n' :: r) := by
    have := drop_of_drop s.text s.pos w (List.replicate (k + 3) '=' ++ w2 ++ '\n' :: r)
      (by rw [hs]; simp)
    rw [this]
    simp
  have hpw2 : parse_while (fun d => decide (d = '=')) { s with pos := s.pos + w.length } =
      { s with pos := s.pos + w.length + (k + 3) } := by
    cases hw2c : w2 with
    | nil =>
      have := parse_while_of_drop (fun x => decide (x = '=')) { s with pos := s.pos + w.length }
        (List.replicate (k + 3) '=') '\n' r
        (by rw [hw2c] at hdropP; exact hdropP) (replicate_all_eq (k + 3)) (by decide)
      rw [this]
      simp
    | cons x xs =>
      have hxws : iswhitespace x = true := hw2 x (by rw [hw2c]; simp)
      have hxne : ¬(x = '=') := by
        intro hxx
        rw [hxx] at hxws
        simp [iswhitespace, isspacePy, isnewline] at hxws
      have := parse_while_of_drop (fun y => decide (y = '=')) { s with pos := s.pos + w.length }
        (List.replicate (k + 3) '=') x (xs ++ '\n' :: r)
        (by rw [hw2c] at hdropP; simpa using hdropP) (replicate_all_eq (k + 3))
        (by simp [hxne])
      rw [this]
      simp
  have hdropP2 : s.text.drop (s.pos + w.length + (k + 3)) = w2 ++ '\n' :: r := by
    have h2 := drop_of_drop s.text (s.pos + w.length) (List.replicate (k + 3) '=')
      (w2 ++ '\n' :: r) hdropP
    simpa using h2
  have hpw3 : parse_while iswhitespace { s with pos := s.pos + w.length + (k + 3) } =
      { s with pos := s.pos + w.length + (k + 3) + w2.length } := by
    have := parse_while_of_drop iswhitespace { s with pos := s.pos + w.length + (k + 3) }
      w2 '\n' r hdropP2 hw2 (by decide)
    rw [this]
  have hchar2 : charAtD s.text (s.pos + w.length + (k + 3) + w2.length) = '\n' :=
    charAtD_of_drop _ _ _ _ _ hdropP2
  unfold check_for_document_begin
  rw [if_neg (by rw [hlvl, hpre]; simp)]
  dsimp only
  rw [hnoop, hpw]
  dsimp only
  rw [if_pos hlt, hchar]
  rw [if_pos rfl]
  rw [hpw2]
  dsimp only
  rw [if_neg (by omega)]
  rw [hpw3]
  dsimp only
  rw [if_pos (Or.inr hchar2)]

/-- `check_for_document_begin` on a root-level preamble line whose first
non-whitespace character is the escape or comment character: no effect. -/
theorem check_doc_noop (s : St) (w : List Char) (c : Char) (r : List Char)
    (hlvl : s.indent_level = 0) (hpre : s.preamble = true)
    (hs : s.text.drop s.pos = w ++ c :: r)
    (hw : ∀ x ∈ w, iswhitespace x = true) (hcc : c = '\\' ∨ c = '%') :
    check_for_document_begin s = .ok false s := by
  have hc : isspacePy c = false := by
    rcases hcc with h | h <;> rw [h] <;> decide
  have hnoop : parse_empty s = s := parse_empty_noop s w c r hs hw hc
  have hpw : parse_while iswhitespace s = { s with pos := s.pos + w.length } :=
    parse_while_of_drop iswhitespace s w c r hs hw (iswhitespace_false_of_not_space c hc)
  have hlt : s.pos + w.length < s.text.length := content_lt_of_drop _ _ _ _ _ hs
  have hchar : charAtD s.text (s.pos + w.length) = c := charAtD_of_drop _ _ _ _ _ hs
  have hcne : ¬(c = '=') := by
    rcases hcc with h | h <;> rw [h] <;> decide
  unfold check_for_document_begin
  rw [if_neg (by rw [hlvl, hpre]; simp)]
  dsimp only
  rw [hnoop, hpw]
  dsimp only
  rw [if_pos hlt, hchar]
  rw [if_neg hcne]
  rw [if_neg (by
    intro hcon
    rcases hcc with h | h
    · exact hcon (Or.inl h)
    · exact hcon (Or.inr (Or.inl h)))]

/-- `check_for_document_begin` on a root-level preamble line starting with
three or more `=` but followed by non-whitespace content: no error and no
effect — the line is not rejected. -/
theorem check_doc_eqcontent (s : St) (w : List Char) (k : Nat) (w2 : List Char) (d : Char)
    (r : List Char)
    (hlvl : s.indent_level = 0) (hpre : s.preamble = true)
    (hs : s.text.drop s.pos = w ++ List.replicate (k + 3) '=' ++ w2 ++ d :: r)
    (hw : ∀ x ∈ w, iswhitespace x = true) (hw2 : ∀ x ∈ w2, iswhitespace x = true)
    (hd : isspacePy d = false) (hdne : ¬(d = '=')) :
    check_for_document_begin s = .ok false s := by
  have hs1 : s.text.drop s.pos =
      w ++ '=' :: (List.replicate (k + 2) '=' ++ w2 ++ d :: r) := by
    rw [hs]
    simp [List.replicate_succ]
  have hnoop : parse_empty s = s :=
    parse_empty_noop s w '=' (List.replicate (k + 2) '=' ++ w2 ++ d :: r) hs1 hw (by decide)
  have hpw : parse_while iswhitespace s = { s with pos := s.pos + w.length } :=
    parse_while_of_drop iswhitespace s w '='
      (List.replicate (k + 2) '=' ++ w2 ++ d :: r) hs1 hw (by decide)
  have hlt : s.pos + w.length < s.text.length := content_lt_of_drop _ _ _ _ _ hs1
  have hchar : charAtD s.text (s.pos + w.length) = '=' := charAtD_of_drop _ _ _ _ _ hs1
  have hdropP : s.text.drop (s.pos + w.length) =
      List.replicate (k + 3) '=' ++ (w2 ++ d :: r) := by
    have := drop_of_drop s.text s.pos w (List.replicate (k + 3) '=' ++ w2 ++ d :: r)
      (by rw [hs]; simp)
    rw [this]
    simp
  have hpw2 : parse_while (fun x => decide (x = '=')) { s with pos := s.pos + w.length } =
      { s with pos := s.pos + w.length + (k + 3) } := by
    cases hw2c : w2 with
    | nil =>
      have := parse_while_of_drop (fun x => decide (x = '=')) { s with pos := s.pos + w.length }
        (List.replicate (k + 3) '=') d r
        (by rw [hw2c] at hdropP; simpa using hdropP) (replicate_all_eq (k + 3))
        (by simp [hdne])
      rw [this]
      simp
    | cons x xs =>
      have hxws : iswhitespace x = true := hw2 x (by rw [hw2c]; simp)
      have hxne : ¬(x = '=') := by
        intro hxx
        rw [hxx] at hxws
        simp [iswhitespace, isspacePy, isnewline] at hxws
      have := parse_while_of_drop (fun y => decide (y = '=')) { s with pos := s.pos + w.length }
        (List.replicate (k + 3) '=') x (xs ++ d :: r)
        (by rw [hw2c] at hdropP; simpa using hdropP) (replicate_all_eq (k + 3))
        (by simp [hxne])
      rw [this]
      simp
  have hdropP2 : s.text.drop (s.pos + w.length + (k + 3)) = w2 ++ d :: r := by
    have h2 := drop_of_drop s.text (s.pos + w.length) (List.replicate (k + 3) '=')
      (w2 ++ d :: r) hdropP
    simpa using h2
  have hpw3 : parse_while iswhitespace { s with pos := s.pos + w.length + (k + 3) } =
      { s with pos := s.pos + w.length + (k + 3) + w2.length } := by
    have := parse_while_of_drop iswhitespace { s with pos := s.pos + w.length + (k + 3) }
      w2 d r hdropP2 hw2 (iswhitespace_false_of_not_space d hd)
    rw [this]
  have hchar2 : charAtD s.text (s.pos + w.length + (k + 3) + w2.length) = d :=
    charAtD_of_drop _ _ _ _ _ hdropP2
  have hlt2 : s.pos + w.length + (k + 3) + w2.length < s.text.length :=
    content_lt_of_drop _ _ _ _ _ hdropP2
  have hdnl : ¬(d = '\n') := by
    intro hdd
    rw [hdd] at hd
    simp [isspacePy] at hd
  unfold check_for_document_begin
  rw [if_neg (by rw [hlvl, hpre]; simp)]
  dsimp only
  rw [hnoop, hpw]
  dsimp only
  rw [if_pos hlt, hchar]
  rw [if_pos rfl]
  rw [hpw2]
  dsimp only
  rw [if_neg (by omega)]
  rw [hpw3]
  dsimp only
  rw [if_neg (by
    intro hcon
    rcases hcon with h | h
    · omega
    · rw [hchar2] at h
      exact hdnl h)]

/-- C6 amended: while the session is in the preamble at root level, a line
whose first non-whitespace character is not `=`, `\` or `%` fails with the
invalid-preamble-line error; a line whose `=` run is shorter than three fails
with the length-specific separator error; a line of three or more `=`
surrounded only by whitespace is the separator (preamble mode ends); a line
whose first non-whitespace character is `\` or `%` is accepted unchanged; and —
unlike what the original claim states — a line starting with three or more `=`
followed by further non-whitespace content is not rejected either. -/
theorem C6_preamble_line_amended :
    (∀ (s : St) (w : List Char) (c : Char) (r : List Char),
      s.indent_level = 0 → s.preamble = true →
      s.text.drop s.pos = w ++ c :: r →
      (∀ x ∈ w, iswhitespace x = true) → isspacePy c = false →
      ¬(c = '=' ∨ c = '\\' ∨ c = '%') →
      check_for_document_begin s =
        .err (.trans (s2l "Preamble lines must start with \\."))
          { s with pos := s.pos + w.length }) ∧
    (∀ (s : St) (w : List Char) (k : Nat) (d : Char) (r : List Char),
      s.indent_level = 0 → s.preamble = true →
      s.text.drop s.pos = w ++ List.replicate (k + 1) '=' ++ d :: r →
      (∀ x ∈ w, iswhitespace x = true) → k + 1 < 3 → ¬(d = '=') →
      check_for_document_begin s =
        .err (.trans (s2l "Separator indicating start of document must be at least '===' (3 equal signs).")) { s with pos := s.pos + w.length + (k + 1) }) ∧
    (∀ (s : St) (w : List Char) (k : Nat) (w2 r : List Char),
      s.indent_level = 0 → s.preamble = true →
      s.text.drop s.pos = w ++ List.replicate (k + 3) '=' ++ w2 ++ '\n' :: r →
      (∀ x ∈ w, iswhitespace x = true) → (∀ x ∈ w2, iswhitespace x = true) →
      check_for_document_begin s =
        .ok true { s with pos := s.pos + w.length + (k + 3) + w2.length, preamble := false }) ∧
    (∀ (s : St) (w : List Char) (c : Char) (r : List Char),
      s.indent_level = 0 → s.preamble = true →
      s.text.drop s.pos = w ++ c :: r →
      (∀ x ∈ w, iswhitespace x = true) → (c = '\\' ∨ c = '%') →
      check_for_document_begin s = .ok false s) ∧
    (∀ (s : St) (w : List Char) (k : Nat) (w2 : List Char) (d : Char) (r : List Char),
      s.indent_level = 0 → s.preamble = true →
      s.text.drop s.pos = w ++ List.replicate (k + 3) '=' ++ w2 ++ d :: r →
      (∀ x ∈ w, iswhitespace x = true) → (∀ x ∈ w2, iswhitespace x = true) →
      isspacePy d = false → ¬(d = '=') →
      check_for_document_begin s = .ok false s) :=
  ⟨check_doc_invalid, check_doc_short, check_doc_sep, check_doc_noop, check_doc_eqcontent⟩

/-- C6 witness: on the root-level preamble line `==x` the separator-length
error fires with the cursor after the two `=` characters. -/
theorem C6_preamble_line_witness :
    check_for_document_begin ⟨none, 0, 0, s2l "==x\n", true⟩ =
      .err (.trans (s2l "Separator indicating start of document must be at least '===' (3 equal signs).")) ⟨none, 0, 2, s2l "==x\n", true⟩ := by
  have h := C6_preamble_line_amended.2.1 ⟨none, 0, 0, s2l "==x\n", true⟩ [] 1 'x' ['\n']
    rfl rfl (by decide) (by decide) (by decide) (by decide)
  exact h.trans (by decide)

/-- Successful `calc_indent_level` on a decomposed line: the level is the
length of the leading whitespace divided by the unit length, and the state is
unchanged. -/
theorem calc_ok (s : St) (u w : List Char) (c : Char) (r : List Char)
    (hu : s.indent_str = some u)
    (hs : s.text.drop s.pos = w ++ c :: r)
    (hw : ∀ x ∈ w, iswhitespace x = true) (hc : iswhitespace c = false)
    (ha : s.pos = 0 ∨ s.pos = s.text.length ∨ charAtD s.text (s.pos - 1) = '\n')
    (homog : w.all (fun x => decide (x = ' ')) = true ∨ w.all (fun x => decide (x = '\t')) = true)
    (hmul : w.length % u.length = 0)
    (hlvl : ¬(s.indent_level = -1)) :
    calc_indent_level true s = .ok (w.length / u.length) s := by
  obtain ⟨is, il, p, t, pr⟩ := s
  dsimp only at hu hs ha hlvl
  subst hu
  have hpw : parse_while iswhitespace ⟨some u, il, p, t, pr⟩ = ⟨some u, il, p + w.length, t, pr⟩ :=
    parse_while_of_drop iswhitespace ⟨some u, il, p, t, pr⟩ w c r hs hw hc
  have hsl : sliceL t p (p + w.length) = w :=
    sliceL_of_drop t p w (c :: r) hs
  unfold calc_indent_level
  rw [if_neg (fun hcon => hcon.2 ha)]
  dsimp only
  rw [hpw]
  dsimp only
  rw [hsl]
  by_cases hw0 : w.length = 0
  · rw [if_pos hw0]
    have hz : w.length / u.length = 0 := by rw [hw0]; exact Nat.zero_div _
    rw [hz, hw0, Nat.add_zero]
  · rw [if_neg hw0]
    unfold validate_indent
    rw [if_pos homog, if_pos (rfl : true = true)]
    dsimp only
    rw [if_neg (by simp)]
    unfold level_of_indent
    dsimp only
    rw [if_neg (fun hcon => hcon.2 hmul)]
    dsimp only
    rw [if_neg (fun hcon => hlvl hcon.2.1)]

/-- `calc_indent_level` rejects leading whitespace that mixes spaces and tabs. -/
theorem calc_mixed (s : St) (w : List Char) (c : Char) (r : List Char)
    (hs : s.text.drop s.pos = w ++ c :: r)
    (hw : ∀ x ∈ w, iswhitespace x = true) (hc : iswhitespace c = false)
    (ha : s.pos = 0 ∨ s.pos = s.text.length ∨ charAtD s.text (s.pos - 1) = '\n')
    (hw0 : ¬(w.length = 0))
    (hmix : ¬(w.all (fun x => decide (x = ' ')) = true ∨
      w.all (fun x => decide (x = '\t')) = true)) :
    calc_indent_level true s =
      .err (.trans (s2l "Invalid indentation; must be all spaces or all tabs"))
        { s with pos := s.pos + w.length } := by
  have hpw : parse_while iswhitespace s = { s with pos := s.pos + w.length } :=
    parse_while_of_drop iswhitespace s w c r hs hw hc
  have hsl : sliceL s.text s.pos (s.pos + w.length) = w :=
    sliceL_of_drop s.text s.pos w (c :: r) hs
  unfold calc_indent_level
  rw [if_neg (fun hcon => hcon.2 ha)]
  dsimp only
  rw [hpw]
  dsimp only
  rw [hsl]
  rw [if_neg hw0]
  unfold validate_indent
  rw [if_neg hmix, if_pos (rfl : true = true)]

/-- `calc_indent_level` rejects homogeneous leading whitespace whose length is
not a whole multiple of the unit's length. -/
theorem calc_notmul (s : St) (u w : List Char) (c : Char) (r : List Char)
    (hu : s.indent_str = some u)
    (hs : s.text.drop s.pos = w ++ c :: r)
    (hw : ∀ x ∈ w, iswhitespace x = true) (hc : iswhitespace c = false)
    (ha : s.pos = 0 ∨ s.pos = s.text.length ∨ charAtD s.text (s.pos - 1) = '\n')
    (hw0 : ¬(w.length = 0))
    (homog : w.all (fun x => decide (x = ' ')) = true ∨ w.all (fun x => decide (x = '\t')) = true)
    (hmul : ¬(w.length % u.length = 0)) :
    calc_indent_level true s =
      .err (.trans (s2l "Indentation must be in multiples of the base indentation `" ++
        u ++ s2l "`")) { s with pos := s.pos + w.length } := by
  obtain ⟨is, il, p, t, pr⟩ := s
  dsimp only at hu hs ha
  subst hu
  have hpw : parse_while iswhitespace ⟨some u, il, p, t, pr⟩ = ⟨some u, il, p + w.length, t, pr⟩ :=
    parse_while_of_drop iswhitespace ⟨some u, il, p, t, pr⟩ w c r hs hw hc
  have hsl : sliceL t p (p + w.length) = w :=
    sliceL_of_drop t p w (c :: r) hs
  unfold calc_indent_level
  rw [if_neg (fun hcon => hcon.2 ha)]
  dsimp only
  rw [hpw]
  dsimp only
  rw [hsl]
  rw [if_neg hw0]
  unfold validate_indent
  rw [if_pos homog, if_pos (rfl : true = true)]
  dsimp only
  rw [if_neg (by simp)]
  unfold level_of_indent
  dsimp only
  rw [if_pos ⟨rfl, hmul⟩]

/-- C4 (amended): once the indentation unit is established it never changes for
the rest of the session — every request of both recursion groups preserves an
already-set `indent_str`; a line whose leading whitespace is homogeneous and a
whole multiple of the unit in length gets level `len(leading) / len(unit)` with
the cursor restored; leading whitespace mixing spaces and tabs, or of a length
that is not a whole multiple of the unit length, is rejected with the fatal
translation error; no check compares the indent characters against the unit
itself, which is what the counterexample to the original claim exploits. -/
theorem C4_indent_unit_amended :
    (∀ (n : Nat) (r : Req1) (s : St) (u : List Char), s.indent_str = some u →
      ((run1 n r s).after).indent_str = some u) ∧
    (∀ (n : Nat) (r : Req2) (s : St) (u : List Char), s.indent_str = some u →
      ((run2 n r s).after).indent_str = some u) ∧
    (∀ (s : St) (u w : List Char) (c : Char) (r : List Char),
      s.indent_str = some u →
      s.text.drop s.pos = w ++ c :: r →
      (∀ x ∈ w, iswhitespace x = true) → iswhitespace c = false →
      (s.pos = 0 ∨ s.pos = s.text.length ∨ charAtD s.text (s.pos - 1) = '\n') →
      (w.all (fun x => decide (x = ' ')) = true ∨ w.all (fun x => decide (x = '\t')) = true) →
      w.length % u.length = 0 → ¬(s.indent_level = -1) →
      calc_indent_level true s = .ok (w.length / u.length) s) ∧
    (∀ (s : St) (w : List Char) (c : Char) (r : List Char),
      s.text.drop s.pos = w ++ c :: r →
      (∀ x ∈ w, iswhitespace x = true) → iswhitespace c = false →
      (s.pos = 0 ∨ s.pos = s.text.length ∨ charAtD s.text (s.pos - 1) = '\n') →
      ¬(w.length = 0) →
      ¬(w.all (fun x => decide (x = ' ')) = true ∨ w.all (fun x => decide (x = '\t')) = true) →
      calc_indent_level true s =
        .err (.trans (s2l "Invalid indentation; must be all spaces or all tabs"))
          { s with pos := s.pos + w.length }) ∧
    (∀ (s : St) (u w : List Char) (c : Char) (r : List Char),
      s.indent_str = some u →
      s.text.drop s.pos = w ++ c :: r →
      (∀ x ∈ w, iswhitespace x = true) → iswhitespace c = false →
      (s.pos = 0 ∨ s.pos = s.text.length ∨ charAtD s.text (s.pos - 1) = '\n') →
      ¬(w.length = 0) →
      (w.all (fun x => decide (x = ' ')) = true ∨ w.all (fun x => decide (x = '\t')) = true) →
      ¬(w.length % u.length = 0) →
      calc_indent_level true s =
        .err (.trans (s2l "Indentation must be in multiples of the base indentation `" ++
          u ++ s2l "`")) { s with pos := s.pos + w.length }) := by
  refine ⟨?_, ?_, ?_, ?_, ?_⟩
  · intro n r s u hu
    exact (run1_keep n r s).2.1 u hu
  · intro n r s u hu
    exact (run2_keep n r s).2.1 u hu
  · intro s u w c r hu hs hw hc ha homog hmul hlvl
    exact calc_ok s u w c r hu hs hw hc ha homog hmul hlvl
  · intro s w c r hs hw hc ha hw0 hmix
    exact calc_mixed s w c r hs hw hc ha hw0 hmix
  · intro s u w c r hu hs hw hc ha hw0 homog hmul
    exact calc_notmul s u w c r hu hs hw hc ha hw0 homog hmul

/-- C4 witness: with unit two spaces already set, a four-space indent before
content is accepted at level 2 with the state unchanged. -/
theorem C4_indent_unit_witness :
    calc_indent_level true ⟨some (s2l "  "), 0, 0, s2l "    x\n", false⟩ =
      .ok 2 ⟨some (s2l "  "), 0, 0, s2l "    x\n", false⟩ := by
  have h := C4_indent_unit_amended.2.2.1 ⟨some (s2l "  "), 0, 0, s2l "    x\n", false⟩
    (s2l "  ") (s2l "    ") 'x' (s2l "\n") rfl (by decide) (by decide) (by decide)
    (by decide) (by decide) (by decide) (by decide)
  exact h

/-- If the optional variant of the argument-scanning loop returns the
no-argument signal, the required variant fails from the same start at the same
final state with the missing-closing-delimiter error (the `required` flag is
only consulted when the scan runs out of input). -/
theorem argLoop_required_of_optional (close : Char) :
    ∀ (n ts : Nat) (body : List Char) (s s₁ : St),
      run1 n (.argLoop close false ts body) s = .ok none s₁ →
      run1 n (.argLoop close true ts body) s =
        .err (.trans (s2l "Missing closing `" ++ [close] ++ s2l "`")) s₁ := by
  intro n
  induction n with
  | zero =>
    intro ts body s s₁ h
    exact absurd h (by intro hcon; exact Res.noConfusion hcon)
  | succ n ih =>
    intro ts body s s₁ h
    have h' : run1_body (run1 n) (.argLoop close false ts body) s = .ok none s₁ := h
    show run1_body (run1 n) (.argLoop close true ts body) s = _
    unfold run1_body at h' ⊢
    dsimp only at h' ⊢
    by_cases hA : s.pos < s.text.length
    · rw [if_pos hA] at h' ⊢
      set s1 := parse_until
        (fun c => decide (c = '\\' ∨ c = close ∨ c = lbraceC ∨ c = '%')) s with hs1
      by_cases hB : s1.pos < s1.text.length
      · rw [if_pos hB] at h' ⊢
        by_cases hC : charAtD s1.text s1.pos = lbraceC
        · rw [if_pos hC] at h' ⊢
          cases hr : run1 n (.parseArg rbraceC true) { s1 with pos := s1.pos + 1 } with
          | err e s2 =>
            rw [hr] at h'
            dsimp only at h'
            simp at h'
          | ok r s2 =>
            rw [hr] at h'
            dsimp only at h' ⊢
            cases r with
            | some a =>
              dsimp only at h' ⊢
              exact ih _ _ _ _ h'
            | none =>
              dsimp only at h'
              simp at h'
        · rw [if_neg hC] at h' ⊢
          by_cases hD : charAtD s1.text s1.pos = '\\'
          · rw [if_pos hD] at h' ⊢
            cases hcmd : commandsReg (parse_control_seq { s1 with pos := s1.pos + 1 }).1 with
            | some cmd =>
              rw [hcmd] at h'
              dsimp only at h' ⊢
              cases hdo : run1 n (.doCommand cmd) (parse_control_seq { s1 with pos := s1.pos + 1 }).2 with
              | err e s3 =>
                rw [hdo] at h'
                dsimp only at h'
                simp at h'
              | ok out s3 =>
                rw [hdo] at h'
                dsimp only at h' ⊢
                exact ih _ _ _ _ h'
            | none =>
              rw [hcmd] at h'
              dsimp only at h' ⊢
              cases hargs : run1 n (.parseArgs none none) (parse_control_seq { s1 with pos := s1.pos + 1 }).2 with
              | err e s3 =>
                rw [hargs] at h'
                dsimp only at h'
                simp at h'
              | ok pr s3 =>
                rw [hargs] at h'
                obtain ⟨args, argstr⟩ := pr
                dsimp only at h' ⊢
                by_cases hcol : (parse_while iswhitespace s3).pos < (parse_while iswhitespace s3).text.length ∧
                    charAtD (parse_while iswhitespace s3).text (parse_while iswhitespace s3).pos = ':'
                · rw [if_pos hcol] at h'
                  simp at h'
                · rw [if_neg hcol] at h' ⊢
                  exact ih _ _ _ _ h'
          · rw [if_neg hD] at h' ⊢
            by_cases hE : charAtD s1.text s1.pos = close
            · rw [if_pos hE] at h'
              simp at h'
            · rw [if_neg hE] at h' ⊢
              exact ih _ _ _ _ h'
      · rw [if_neg hB] at h' ⊢
        unfold parse_argEnd at h' ⊢
        rw [if_neg (by decide : ¬(false = true))] at h'
        rw [if_pos (rfl : true = true)]
        injection h' with hv hst
        rw [hst]
    · rw [if_neg hA] at h' ⊢
      unfold parse_argEnd at h' ⊢
      rw [if_neg (by decide : ¬(false = true))] at h'
      rw [if_pos (rfl : true = true)]
      injection h' with hv hst
      rw [hst]

/-- C7: when the optional bracket-delimited argument scan reaches end of input
before the closing delimiter it returns the explicit no-argument signal, and
the enclosing argument-list loop then rewinds the cursor to the position of the
opening bracket, so the failed probe consumes no input; from the same start the
required variant instead fails with the missing-closing-delimiter translation
error at the same final scan state. -/
theorem C7_optional_probe :
    (∀ (fuel : Nat) (close : Char) (s s₁ : St),
      parse_arg fuel close false s = .ok none s₁ →
      parse_arg fuel close true s =
        .err (.trans (s2l "Missing closing `" ++ [close] ++ s2l "`")) s₁) ∧
    (∀ (n : Nat) (mi ma : Option Nat) (args : List Arg) (ps nargs : Nat) (s s1 s2 : St),
      parse_while iswhitespace s = s1 →
      ¬(s1.pos = s1.text.length) →
      ¬(charAtD s1.text s1.pos = lbraceC) →
      charAtD s1.text s1.pos = '[' →
      parse_arg n ']' false { s1 with pos := s1.pos + 1 } = .ok none s2 →
      run1 (n + 1) (.argsLoop mi ma args ps nargs) s =
        .ok (args, sliceL s2.text ps s1.pos) { s2 with pos := s1.pos }) := by
  constructor
  · intro fuel close s s₁ h
    cases fuel with
    | zero => exact absurd h (fun hcon => Res.noConfusion hcon)
    | succ n =>
      have h' : run1 n (.argLoop close false s.pos []) s = .ok none s₁ := h
      show run1 n (.argLoop close true s.pos []) s = _
      exact argLoop_required_of_optional close n s.pos [] s s₁ h'
  · intro n mi ma args ps nargs s s1 s2 hs1 hne hlb hbr hr
    subst hs1
    have hr' : run1 n (.parseArg ']' false)
        { parse_while iswhitespace s with pos := (parse_while iswhitespace s).pos + 1 } =
      .ok none s2 := hr
    show run1_body (run1 n) (.argsLoop mi ma args ps nargs) s = _
    unfold run1_body
    dsimp only
    rw [if_neg hne, if_neg hlb, if_pos hbr, hr']

/-- C7 witness: on `"ab\n"` the optional probe for a bracket argument hits end
of input and the required parse fails with the missing-bracket error; on
`"[ab\n"` the argument loop rewinds the cursor to the opening bracket and
returns no argument. -/
theorem C7_optional_probe_witness :
    (parse_arg 2 ']' true ⟨none, 0, 0, s2l "ab\n", true⟩ =
      .err (.trans (s2l "Missing closing `" ++ [']'] ++ s2l "`"))
        ⟨none, 0, 3, s2l "ab\n", true⟩) ∧
    (run1 3 (.argsLoop none none [] 0 0) ⟨none, 0, 0, s2l "[ab\n", true⟩ =
      .ok ([], []) ⟨none, 0, 0, s2l "[ab\n", true⟩) := by
  constructor
  · exact C7_optional_probe.1 2 ']' ⟨none, 0, 0, s2l "ab\n", true⟩
      ⟨none, 0, 3, s2l "ab\n", true⟩ (by decide)
  · have h := C7_optional_probe.2 2 none none [] 0 0 ⟨none, 0, 0, s2l "[ab\n", true⟩
      ⟨none, 0, 0, s2l "[ab\n", true⟩ ⟨none, 0, 4, s2l "[ab\n", true⟩
      rfl (by decide) (by decide) (by decide) (by decide)
    exact h.trans (by decide)

/-- The resolution loop itself never produces the too-many-arguments internal
error: its own failures are `TranslationError`s. -/
theorem resolveLoop_no_internal (name : List Char) (args : List Arg) :
    ∀ (ps : List Char) (arg_num : Nat) (acc : List (Option (List Char))),
      ¬(resolveLoop name args ps arg_num acc =
        .error (.internal (s2l "Internal error: too many arguments"))) := by
  intro ps
  induction ps with
  | nil =>
    intro arg_num acc h
    exact Except.noConfusion h
  | cons p ps ih =>
    intro arg_num acc h
    unfold resolveLoop at h
    by_cases hp : p = '!'
    · rw [if_pos hp] at h
      cases hv : args[arg_num]? with
      | some a =>
        rw [hv] at h
        dsimp only at h
        by_cases ho : a.optional = false
        · rw [if_pos ho] at h
          exact ih _ _ h
        · rw [if_neg ho] at h
          simp at h
      | none =>
        rw [hv] at h
        simp at h
    · rw [if_neg hp] at h
      cases hv : args[arg_num]? with
      | some a =>
        rw [hv] at h
        dsimp only at h
        by_cases ho : a.optional = true
        · rw [if_pos ho] at h
          exact ih _ _ h
        · rw [if_neg ho] at h
          exact ih _ _ h
      | none =>
        rw [hv] at h
        exact ih _ _ h

/-- The argument-list loop with a maximum never accumulates more arguments
than the maximum, given that the running count is below it and matches the
accumulator length. -/
theorem argsLoop_bound (mi : Option Nat) (M : Nat) :
    ∀ (n : Nat) (args0 : List Arg) (ps nargs : Nat) (s : St) (args : List Arg)
      (argstr : List Char) (s' : St),
      args0.length = nargs → nargs < M →
      run1 n (.argsLoop mi (some M) args0 ps nargs) s = .ok (args, argstr) s' →
      args.length ≤ M := by
  intro n
  induction n with
  | zero =>
    intro args0 ps nargs s args argstr s' h1 h2 h
    exact absurd h (fun hc => Res.noConfusion hc)
  | succ n ih =>
    intro args0 ps nargs s args argstr s' hlen hlt h
    have h' : run1_body (run1 n) (.argsLoop mi (some M) args0 ps nargs) s =
      .ok (args, argstr) s' := h
    unfold run1_body at h'
    dsimp only at h'
    by_cases hA : (parse_while iswhitespace s).pos = (parse_while iswhitespace s).text.length
    · rw [if_pos hA] at h'
      injection h' with hpr hst
      injection hpr with hpa hpb
      subst hpa
      omega
    · rw [if_neg hA] at h'
      by_cases hC : charAtD (parse_while iswhitespace s).text (parse_while iswhitespace s).pos = lbraceC
      · rw [if_pos hC] at h'
        cases hr : run1 n (.parseArg rbraceC true)
            { parse_while iswhitespace s with pos := (parse_while iswhitespace s).pos + 1 } with
        | err e s2 =>
          rw [hr] at h'
          simp at h'
        | ok r s2 =>
          rw [hr] at h'
          dsimp only at h'
          by_cases hge : nargs + 1 ≥ M
          · rw [if_pos (decide_eq_true hge)] at h'
            injection h' with hpr hst
            injection hpr with hpa hpb
            have : args.length = args0.length + 1 := by rw [← hpa]; simp
            omega
          · rw [if_neg (fun hc => hge (of_decide_eq_true hc))] at h'
            exact ih (args0 ++ [⟨r, false⟩]) ps (nargs + 1) s2 args argstr s'
              (by simp [hlen]) (by omega) h'
      · rw [if_neg hC] at h'
        by_cases hD : charAtD (parse_while iswhitespace s).text (parse_while iswhitespace s).pos = '['
        · rw [if_pos hD] at h'
          cases hr : run1 n (.parseArg ']' false)
              { parse_while iswhitespace s with pos := (parse_while iswhitespace s).pos + 1 } with
          | err e s2 =>
            rw [hr] at h'
            simp at h'
          | ok r s2 =>
            rw [hr] at h'
            dsimp only at h'
            cases r with
            | some a =>
              dsimp only at h'
              by_cases hge : nargs + 1 ≥ M
              · rw [if_pos (decide_eq_true hge)] at h'
                injection h' with hpr hst
                injection hpr with hpa hpb
                have : args.length = args0.length + 1 := by rw [← hpa]; simp
                omega
              · rw [if_neg (fun hc => hge (of_decide_eq_true hc))] at h'
                exact ih (args0 ++ [⟨some a, true⟩]) ps (nargs + 1) s2 args argstr s'
                  (by simp [hlen]) (by omega) h'
            | none =>
              dsimp only at h'
              injection h' with hpr hst
              injection hpr with hpa hpb
              subst hpa
              omega
        · rw [if_neg hD] at h'
          split at h'
          · simp at h'
          · injection h' with hpr hst
            injection hpr with hpa hpb
            subst hpa
            omega

/-- `parse_args` with a maximum never returns more arguments than it. -/
theorem parse_args_bound (fuel : Nat) (mi : Option Nat) (M : Nat) (s : St)
    (args : List Arg) (argstr : List Char) (s' : St)
    (h : parse_args fuel mi (some M) s = .ok (args, argstr) s') :
    args.length ≤ M := by
  cases fuel with
  | zero => exact absurd h (fun hc => Res.noConfusion hc)
  | succ n =>
    have h' : run1_body (run1 n) (.parseArgs mi (some M)) s = .ok (args, argstr) s' := h
    unfold run1_body at h'
    dsimp only at h'
    by_cases hM : (some M : Option Nat) = some 0
    · rw [if_pos hM] at h'
      simp at h'
    · rw [if_neg hM] at h'
      have hM0 : 0 < M := by
        rcases Nat.eq_zero_or_pos M with h0 | h0
        · exact absurd (by rw [h0]) hM
        · exact h0
      exact argsLoop_bound mi M n [] s.pos 0 s args argstr s' rfl hM0 h'

/-- `do_command` hands `translate` exactly the arguments parsed with the
pattern length as maximum. -/
theorem do_command_args (n : Nat) (cmd : Command) (s : St) (args : List Arg)
    (argstr : List Char) (s1 : St) (out : List Char)
    (hp : ¬(cmd.params.length = 0))
    (hargs : parse_args n none (some cmd.params.length) s = .ok (args, argstr) s1)
    (htr : cmd.translate args = .ok out) :
    do_command (n + 1) cmd s = .ok out s1 := by
  have h' : run1 n (.parseArgs none (some cmd.params.length)) s = .ok (args, argstr) s1 := hargs
  show run1_body (run1 n) (.doCommand cmd) s = _
  unfold run1_body
  dsimp only
  rw [if_neg hp, h']
  dsimp only
  rw [htr]

/-- C8 (amended): for command dispatch the arity limiting holds — `do_command`
parses with `max_args` equal to the registered pattern length and hands those
arguments to resolution, `parse_args` never returns more arguments than its
maximum, and `resolve_args` cannot reach the too-many-arguments internal
branch when given at most pattern-length arguments; the counterexample theorem
shows environment dispatch, which parses without a maximum, does reach that
internal error. -/
theorem C8_command_arity_amended :
    (∀ (fuel : Nat) (mi : Option Nat) (M : Nat) (s : St) (args : List Arg)
       (argstr : List Char) (s' : St),
       parse_args fuel mi (some M) s = .ok (args, argstr) s' → args.length ≤ M) ∧
    (∀ (n : Nat) (cmd : Command) (s : St) (args : List Arg) (argstr : List Char)
       (s1 : St) (out : List Char),
       ¬(cmd.params.length = 0) →
       parse_args n none (some cmd.params.length) s = .ok (args, argstr) s1 →
       cmd.translate args = .ok out →
       do_command (n + 1) cmd s = .ok out s1) ∧
    (∀ (name params : List Char) (args : List Arg),
       args.length ≤ params.length →
       ¬(resolve_args name params args =
         .error (.internal (s2l "Internal error: too many arguments")))) := by
  refine ⟨?_, ?_, ?_⟩
  · intro fuel mi M s args argstr s' h
    exact parse_args_bound fuel mi M s args argstr s' h
  · intro n cmd s args argstr s1 out hp hargs htr
    exact do_command_args n cmd s args argstr s1 out hp hargs htr
  · intro name params args hle hcon
    unfold resolve_args at hcon
    rw [if_neg (by omega : ¬(args.length > params.length))] at hcon
    exact resolveLoop_no_internal name args params 0 [] hcon

/-- C8 witness: parsing `"\x7ba\x7dx"` with maximum 1 yields one argument
(within the bound), a one-parameter command consumes exactly that argument, and
resolving one argument against a two-slot pattern avoids the internal error. -/
theorem C8_command_arity_witness :
    (([⟨some (s2l "a"), false⟩] : List Arg).length ≤ 1) ∧
    (do_command 5 ⟨s2l "c", s2l "!", fun _ => .ok (s2l "X")⟩
        ⟨none, 0, 0, s2l "\x7ba\x7dx\n", true⟩ =
      .ok (s2l "X") ⟨none, 0, 3, s2l "\x7ba\x7dx\n", true⟩) ∧
    ¬(resolve_args (s2l "f") (s2l "!!") [⟨some (s2l "a"), false⟩] =
      .error (.internal (s2l "Internal error: too many arguments"))) := by
  refine ⟨?_, ?_, ?_⟩
  · exact C8_command_arity_amended.1 4 none 1 ⟨none, 0, 0, s2l "\x7ba\x7dx\n", true⟩
      [⟨some (s2l "a"), false⟩] (s2l "\x7ba\x7d") ⟨none, 0, 3, s2l "\x7ba\x7dx\n", true⟩
      (by decide)
  · exact C8_command_arity_amended.2.1 4 ⟨s2l "c", s2l "!", fun _ => .ok (s2l "X")⟩
      ⟨none, 0, 0, s2l "\x7ba\x7dx\n", true⟩ [⟨some (s2l "a"), false⟩] (s2l "\x7ba\x7d")
      ⟨none, 0, 3, s2l "\x7ba\x7dx\n", true⟩ (s2l "X") (by decide) (by decide) rfl
  · exact C8_command_arity_amended.2.2 (s2l "f") (s2l "!!") [⟨some (s2l "a"), false⟩]
      (by decide)

/-- Document tails made only of blank lines and comment lines. -/
inductive GoodTail : List Char → Prop where
  | nil : GoodTail []
  | blank (b r : List Char) : (∀ x ∈ b, isspacePy x = true) → (∀ x ∈ b, isnewline x = false) →
      GoodTail r → GoodTail (b ++ '\n' :: r)
  | comment (w c r : List Char) : (∀ x ∈ w, iswhitespace x = true) →
      (∀ x ∈ c, isnewline x = false) → GoodTail r → GoodTail (w ++ '%' :: (c ++ '\n' :: r))

/-- Tail at a block-loop position: empty, or a comment line followed by a good
tail (the blank prefix has already been consumed). -/
def CTail (t : List Char) : Prop :=
  t = [] ∨ ∃ w c r, (∀ x ∈ w, iswhitespace x = true) ∧ (∀ x ∈ c, isnewline x = false) ∧
    GoodTail r ∧ t = w ++ '%' :: (c ++ '\n' :: r)

/-- Documents whose content lines are all comment lines, the first of them
unindented; blank lines may precede and follow. -/
inductive GoodDoc : List Char → Prop where
  | nil : GoodDoc []
  | blank (b r : List Char) : (∀ x ∈ b, isspacePy x = true) → (∀ x ∈ b, isnewline x = false) →
      GoodDoc r → GoodDoc (b ++ '\n' :: r)
  | comment (c r : List Char) : (∀ x ∈ c, isnewline x = false) → GoodTail r →
      GoodDoc ('%' :: (c ++ '\n' :: r))

/-- A slice up to `b` glued back onto the drop from `b`. -/
theorem sliceL_append_drop (l : List Char) (a b : Nat) (h : a ≤ b) :
    sliceL l a b ++ l.drop b = l.drop a := by
  unfold sliceL
  rw [List.drop_take]
  have h2 : (l.drop a).drop (b - a) = l.drop b := by
    rw [List.drop_drop]
    congr 1
    omega
  rw [← h2, List.take_append_drop]

/-- `parse_emptyAux` at or past the end of input. -/
theorem parse_emptyAux_eof (m : Nat) (s : St) (h : s.text.length ≤ s.pos) :
    parse_emptyAux m s = s := by
  cases m with
  | zero => rfl
  | succ m =>
    unfold parse_emptyAux
    rw [if_neg (by omega)]

/-- One blank-line step of `parse_emptyAux`. -/
theorem parse_emptyAux_blank (m : Nat) (s : St) (b r' : List Char)
    (hs : s.text.drop s.pos = b ++ '\n' :: r')
    (hb : ∀ x ∈ b, isspacePy x = true) (hbn : ∀ x ∈ b, isnewline x = false) :
    parse_emptyAux (m + 1) s = parse_emptyAux m { s with pos := s.pos + b.length + 1 } := by
  have hlt : s.pos < s.text.length := by
    by_contra hcon
    push_neg at hcon
    rw [List.drop_eq_nil_of_le hcon] at hs
    exact absurd hs.symm (by simp)
  have hfind : findFrom isnewline (s.text.drop s.pos) s.pos = some (s.pos + b.length) := by
    rw [hs, findFrom_append_false isnewline b ('\n' :: r') s.pos hbn]
    simp [findFrom, isnewline]
  have hs2 : s.text.drop s.pos = (b ++ ['\n']) ++ r' := by
    rw [hs]
    simp
  have hseg : sliceL s.text s.pos (s.pos + b.length + 1) = b ++ ['\n'] := by
    have := sliceL_of_drop s.text s.pos (b ++ ['\n']) r' hs2
    simpa [Nat.add_assoc] using this
  conv_lhs => unfold parse_emptyAux
  rw [if_pos hlt, hfind]
  simp only [Option.getD_some]
  rw [hseg]
  rw [if_pos ⟨by simp, by
    simp only [List.all_append, Bool.and_eq_true, List.all_eq_true]
    exact ⟨hb, by intro x hx; simp at hx; rw [hx]; decide⟩⟩]

/-- `parse_emptyAux` does not move on a line that contains a non-space
character before its newline, whatever the fuel. -/
theorem parse_emptyAux_noop (m : Nat) (s : St) (w : List Char) (c : Char) (r : List Char)
    (hs : s.text.drop s.pos = w ++ c :: r)
    (hw : ∀ x ∈ w, iswhitespace x = true) (hc : isspacePy c = false) :
    parse_emptyAux (m + 1) s = s := by
  have hlt : s.pos < s.text.length := by
    by_contra hcon
    push_neg at hcon
    rw [List.drop_eq_nil_of_le hcon] at hs
    exact absurd hs.symm (by simp)
  have hdl : (s.text.drop s.pos).length = s.text.length - s.pos := by simp
  have hwnl : ∀ x ∈ w, isnewline x = false := by
    intro x hx
    have := hw x hx
    unfold iswhitespace at this
    simp only [Bool.and_eq_true, Bool.not_eq_true'] at this
    exact this.2
  have hcnl : isnewline c = false := by
    unfold isnewline
    simp only [decide_eq_false_iff_not]
    intro hcc
    rw [hcc] at hc
    simp [isspacePy] at hc
  have hle : s.pos + w.length ≤ (findFrom isnewline (s.text.drop s.pos) s.pos).getD
      (s.text.length - 1) := by
    rw [hs, findFrom_append_false isnewline w (c :: r) s.pos hwnl]
    have step : findFrom isnewline (c :: r) (s.pos + w.length) =
        findFrom isnewline r (s.pos + w.length + 1) := by
      simp [findFrom, hcnl]
    rw [step]
    cases hf : findFrom isnewline r (s.pos + w.length + 1) with
    | none =>
      simp only [Option.getD_none]
      have hlen : s.text.length - s.pos = w.length + 1 + r.length := by
        rw [← hdl, hs]
        simp
        omega
      omega
    | some j =>
      have := findFrom_some_bounds isnewline r (s.pos + w.length + 1) j hf
      simp only [Option.getD_some]
      omega
  unfold parse_emptyAux
  rw [if_pos hlt]
  have hseg : ¬(sliceL s.text s.pos
      (((findFrom isnewline (s.text.drop s.pos) s.pos).getD (s.text.length - 1)) + 1) ≠ [] ∧
      (sliceL s.text s.pos
        (((findFrom isnewline (s.text.drop s.pos) s.pos).getD (s.text.length - 1)) + 1)).all
        isspacePy) := by
    intro hcon
    set le := (findFrom isnewline (s.text.drop s.pos) s.pos).getD (s.text.length - 1) with hle2
    have hk : le + 1 - s.pos = w.length + 1 + (le - s.pos - w.length) := by omega
    have hsliceeq : sliceL s.text s.pos (le + 1) =
        w ++ c :: (r.take (le - s.pos - w.length)) := by
      unfold sliceL
      rw [List.drop_take]
      have h2 : le + 1 - s.pos = w.length + (1 + (le - s.pos - w.length)) := by omega
      rw [h2, hs, List.take_append]
      congr 1
      rw [Nat.add_comm]
      rfl
    have := hcon.2
    rw [hsliceeq] at this
    simp only [List.all_append, List.all_cons, Bool.and_eq_true] at this
    rw [hc] at this
    simp at this
  rw [if_neg hseg]

/-- Whitespace characters are none of newline, backslash, percent. -/
theorem ws_not_special (x : Char) (hx : iswhitespace x = true) :
    ¬(x = '\n') ∧ ¬(x = '\\') ∧ ¬(x = '%') := by
  unfold iswhitespace isspacePy isnewline at hx
  simp only [Bool.and_eq_true, Bool.not_eq_true', decide_eq_true_eq,
    decide_eq_false_iff_not] at hx
  obtain ⟨hsp, hnl⟩ := hx
  rcases hsp with h | h | h | h | h | h
  · subst h; exact ⟨by decide, by decide, by decide⟩
  · subst h; exact ⟨by decide, by decide, by decide⟩
  · exact absurd h hnl
  · subst h; exact ⟨by decide, by decide, by decide⟩
  · subst h; exact ⟨by decide, by decide, by decide⟩
  · subst h; exact ⟨by decide, by decide, by decide⟩

/-- `calc_indent_level` at end of input: level zero, no movement. -/
theorem calc_eof (s : St) (hp : s.pos = s.text.length) :
    calc_indent_level true s = .ok 0 s := by
  have hnil : s.text.drop s.pos = [] := List.drop_eq_nil_of_le (by omega)
  have hpw : parse_while iswhitespace s = s := by
    unfold parse_while
    rw [hnil]
    rfl
  unfold calc_indent_level
  rw [if_neg (fun hcon => hcon.2 (Or.inr (Or.inl hp)))]
  dsimp only
  rw [hpw]
  have hsl : sliceL s.text s.pos s.pos = [] := by
    unfold sliceL
    rw [List.drop_take]
    simp
  rw [hsl, if_pos (show (([] : List Char).length = 0) from rfl)]

/-- `calc_indent_level` on an unindented content line: level zero, no
movement, no error, regardless of whether a unit is set. -/
theorem calc_content0 (s : St) (c : Char) (r : List Char)
    (hs : s.text.drop s.pos = c :: r) (hc : iswhitespace c = false)
    (ha : s.pos = 0 ∨ s.pos = s.text.length ∨ charAtD s.text (s.pos - 1) = '\n') :
    calc_indent_level true s = .ok 0 s := by
  have hpw : parse_while iswhitespace s = { s with pos := s.pos + ([] : List Char).length } :=
    parse_while_of_drop iswhitespace s [] c r (by simpa using hs) (by simp) hc
  have hsl : sliceL s.text s.pos s.pos = [] := by
    unfold sliceL
    rw [List.drop_take]
    simp
  unfold calc_indent_level
  rw [if_neg (fun hcon => hcon.2 ha)]
  dsimp only
  rw [hpw]
  dsimp only
  have hsl2 : sliceL s.text s.pos (s.pos + ([] : List Char).length) = [] := by
    simpa using hsl
  rw [hsl2, if_pos (show (([] : List Char).length = 0) from rfl)]
  rw [show s.pos + ([] : List Char).length = s.pos from rfl]

/-- `parse_emptyAux` on a good tail: it consumes the blank-line prefix and
stops at a comment line or the end of input. -/
theorem parse_emptyAux_good :
    ∀ (tail : List Char), GoodTail tail → ∀ (m : Nat) (s : St),
      s.text.drop s.pos = tail → s.pos ≤ s.text.length → tail.length < m →
      ∃ p', parse_emptyAux m s = { s with pos := p' } ∧ s.pos ≤ p' ∧ p' ≤ s.text.length ∧
        CTail (s.text.drop p') ∧ s.text.length - p' ≤ tail.length := by
  intro tail hgood
  induction hgood with
  | nil =>
    intro m s hdrop hple hm
    have hlen : s.text.length ≤ s.pos := by
      by_contra hcon
      push_neg at hcon
      have : (s.text.drop s.pos).length = s.text.length - s.pos := by simp
      rw [hdrop] at this
      simp at this
      omega
    refine ⟨s.pos, ?_, le_refl _, hple, ?_, by omega⟩
    · exact parse_emptyAux_eof m s hlen
    · rw [hdrop]
      exact Or.inl rfl
  | blank b r hb hbn hr ih =>
    intro m s hdrop hple hm
    cases m with
    | zero => exact absurd hm (Nat.not_lt_zero _)
    | succ m =>
      have hstep := parse_emptyAux_blank m s b r hdrop hb hbn
      have hdrop2 : s.text.drop s.pos = (b ++ ['\n']) ++ r := by rw [hdrop]; simp
      have hdrop' : s.text.drop (s.pos + b.length + 1) = r := by
        have := drop_of_drop s.text s.pos (b ++ ['\n']) r hdrop2
        simpa [Nat.add_assoc] using this
      have hlen : (s.text.drop s.pos).length = s.text.length - s.pos := by simp
      rw [hdrop] at hlen
      simp only [List.length_append, List.length_cons] at hlen
      have hple' : s.pos + b.length + 1 ≤ s.text.length := by omega
      have hm' : r.length < m := by
        have : (b ++ '\n' :: r).length = b.length + 1 + r.length := by simp; omega
        omega
      obtain ⟨p', heq, h1, h2, h3, h4⟩ :=
        ih m { s with pos := s.pos + b.length + 1 } hdrop' hple' hm'
      dsimp only at h1 h2 h4
      refine ⟨p', ?_, by omega, h2, h3, ?_⟩
      · rw [hstep, heq]
      · have : (b ++ '\n' :: r).length = b.length + 1 + r.length := by simp; omega
        omega
  | comment w c r hw hcn hr ih =>
    intro m s hdrop hple hm
    cases m with
    | zero => exact absurd hm (Nat.not_lt_zero _)
    | succ m =>
      have hnoop : parse_emptyAux (m + 1) s = s :=
        parse_emptyAux_noop m s w '%' (c ++ '\n' :: r) hdrop hw (by decide)
      have hlen : (s.text.drop s.pos).length = s.text.length - s.pos := by simp
      rw [hdrop] at hlen
      refine ⟨s.pos, hnoop, le_refl _, hple, ?_, by omega⟩
      rw [hdrop]
      exact Or.inr ⟨w, c, r, hw, hcn, hr, rfl⟩

/-- `parse_emptyAux` on a good document: it consumes the blank-line prefix and
stops at the unindented first comment line or the end of input; when it moved,
it stopped just after a newline. -/
theorem parse_emptyAux_root :
    ∀ (tail : List Char), GoodDoc tail → ∀ (m : Nat) (s : St),
      s.text.drop s.pos = tail → s.pos ≤ s.text.length → tail.length < m →
      ∃ p', parse_emptyAux m s = { s with pos := p' } ∧ s.pos ≤ p' ∧ p' ≤ s.text.length ∧
        (s.text.drop p' = [] ∨ ∃ c r, (∀ x ∈ c, isnewline x = false) ∧ GoodTail r ∧
          s.text.drop p' = '%' :: (c ++ '\n' :: r)) ∧
        (p' = s.pos ∨ charAtD s.text (p' - 1) = '\n') := by
  intro tail hgood
  induction hgood with
  | nil =>
    intro m s hdrop hple hm
    refine ⟨s.pos, ?_, le_refl _, hple, Or.inl hdrop, Or.inl rfl⟩
    have hlen : s.text.length ≤ s.pos := by
      by_contra hcon
      push_neg at hcon
      have : (s.text.drop s.pos).length = s.text.length - s.pos := by simp
      rw [hdrop] at this
      simp at this
      omega
    exact parse_emptyAux_eof m s hlen
  | blank b r hb hbn hr ih =>
    intro m s hdrop hple hm
    cases m with
    | zero => exact absurd hm (Nat.not_lt_zero _)
    | succ m =>
      have hstep := parse_emptyAux_blank m s b r hdrop hb hbn
      have hdrop2 : s.text.drop s.pos = (b ++ ['\n']) ++ r := by rw [hdrop]; simp
      have hdrop' : s.text.drop (s.pos + b.length + 1) = r := by
        have := drop_of_drop s.text s.pos (b ++ ['\n']) r hdrop2
        simpa [Nat.add_assoc] using this
      have hlen : (s.text.drop s.pos).length = s.text.length - s.pos := by simp
      rw [hdrop] at hlen
      simp only [List.length_append, List.length_cons] at hlen
      have hple' : s.pos + b.length + 1 ≤ s.text.length := by omega
      have hm' : r.length < m := by
        have : (b ++ '\n' :: r).length = b.length + 1 + r.length := by simp; omega
        omega
      obtain ⟨p', heq, h1, h2, h3, h4⟩ :=
        ih m { s with pos := s.pos + b.length + 1 } hdrop' hple' hm'
      dsimp only at h1 h2 h4
      have hnlchar : charAtD s.text (s.pos + b.length) = '\n' :=
        charAtD_of_drop s.text s.pos b '\n' r hdrop
      refine ⟨p', ?_, by omega, h2, h3, ?_⟩
      · rw [hstep, heq]
      · rcases h4 with h4 | h4
        · right
          have : p' - 1 = s.pos + b.length := by
            rw [h4]
            simp
          rw [this]
          exact hnlchar
        · exact Or.inr h4
  | comment c r hcn hr =>
    intro m s hdrop hple hm
    cases m with
    | zero => exact absurd hm (Nat.not_lt_zero _)
    | succ m =>
      have hnoop : parse_emptyAux (m + 1) s = s :=
        parse_emptyAux_noop m s [] '%' (c ++ '\n' :: r) (by simpa using hdrop)
          (by simp) (by decide)
      exact ⟨s.pos, hnoop, le_refl _, hple, Or.inr ⟨c, r, hcn, hr, hdrop⟩, Or.inl rfl⟩

/-- The block loop passes a comment-and-blank tail through unchanged: with the
invariant that the accumulated body plus the unconsumed suffix from the token
start is the whole text, it returns the whole text with the cursor at the end
and the state otherwise unchanged. -/
theorem blockLoop_good (T : List Char) (hT : T.getLast? = some '\n') :
    ∀ (n : Nat) (p ts : Nat) (body : List Char) (prev : Int),
      CTail (T.drop p) → p ≤ T.length → ts ≤ p →
      body ++ T.drop ts = T → T.length - p < n →
      run2 n (.blockLoop false prev ts body) ⟨none, 0, p, T, true⟩ =
        .ok T ⟨none, 0, T.length, T, true⟩ := by
  intro n
  induction n with
  | zero =>
    intro p ts body prev hct hple hts hinv hf
    exact absurd hf (Nat.not_lt_zero _)
  | succ n ih =>
    intro p ts body prev hct hple hts hinv hf
    show run2_body n (run2 n) (.blockLoop false prev ts body) ⟨none, 0, p, T, true⟩ = _
    rcases hct with hnil | ⟨w, c, r, hw, hcn, hr, heq⟩
    · have hp : p = T.length := by
        have h0 : (T.drop p).length = T.length - p := by simp
        rw [hnil] at h0
        simp at h0
        omega
      subst hp
      unfold run2_body
      dsimp only
      rw [if_pos rfl]
      unfold block_end
      dsimp only
      rw [hinv, hT]
      dsimp only
      rw [if_neg (by simp)]
    · have hlen : T.length - p = w.length + 1 + (c.length + 1 + r.length) := by
        have h0 : (T.drop p).length = T.length - p := by simp
        rw [heq] at h0
        simp only [List.length_append, List.length_cons] at h0
        omega
      have hplt : p < T.length := by omega
      have hcd : check_for_document_begin ⟨none, 0, p, T, true⟩ =
          .ok false ⟨none, 0, p, T, true⟩ :=
        check_doc_noop ⟨none, 0, p, T, true⟩ w '%' (c ++ '\n' :: r) rfl rfl heq hw (Or.inr rfl)
      have hwpred : ∀ x ∈ w,
          (fun ch => !(decide (ch = '\n') || (!false && (decide (ch = '\\') || decide (ch = '%'))))) x
            = true := by
        intro x hx
        obtain ⟨h1, h2, h3⟩ := ws_not_special x (hw x hx)
        simp [h1, h2, h3]
      have hpu : parse_until
          (fun ch => decide (ch = '\n') || (!false && (decide (ch = '\\') || decide (ch = '%'))))
          ⟨none, 0, p, T, true⟩ = ⟨none, 0, p + w.length, T, true⟩ := by
        unfold parse_until
        exact parse_while_of_drop
          (fun ch => !(decide (ch = '\n') || (!false && (decide (ch = '\\') || decide (ch = '%')))))
          ⟨none, 0, p, T, true⟩ w '%' (c ++ '\n' :: r) heq hwpred (by decide)
      have hchar : charAtD T (p + w.length) = '%' :=
        charAtD_of_drop T p w '%' (c ++ '\n' :: r) heq
      have hdropw : T.drop (p + w.length) = ('%' :: c) ++ '\n' :: r := by
        have := drop_of_drop T p w ('%' :: (c ++ '\n' :: r)) heq
        simpa using this
      have hpun : parse_until isnewline ⟨none, 0, p + w.length, T, true⟩ =
          ⟨none, 0, p + w.length + (c.length + 1), T, true⟩ := by
        unfold parse_until
        have := parse_while_of_drop (fun ch => !(isnewline ch)) ⟨none, 0, p + w.length, T, true⟩
          ('%' :: c) '\n' r hdropw
          (by
            intro x hx
            rcases List.mem_cons.mp hx with h | h
            · subst h; decide
            · have hx2 := hcn x h
              simp [Bool.not_eq_true', hx2])
          (by decide)
        simpa [Nat.add_comm] using this
      have hdropq : T.drop (p + w.length + (c.length + 1)) = '\n' :: r := by
        have := drop_of_drop T (p + w.length) ('%' :: c) ('\n' :: r) hdropw
        simpa [Nat.add_comm] using this
      have hstep : parse_emptyAux (T.length + 1)
            ⟨none, 0, p + w.length + (c.length + 1), T, true⟩ =
          parse_emptyAux T.length ⟨none, 0, p + w.length + (c.length + 1) + 1, T, true⟩ := by
        have := parse_emptyAux_blank T.length ⟨none, 0, p + w.length + (c.length + 1), T, true⟩
          [] r (by simpa using hdropq) (by simp) (by simp)
        simpa using this
      have hdropq1 : T.drop (p + w.length + (c.length + 1) + 1) = r :=
        drop_succ_of_drop T (p + w.length + (c.length + 1)) '\n' r hdropq
      have hq1le : p + w.length + (c.length + 1) + 1 ≤ T.length := by omega
      have hrlen : r.length < T.length := by
        have h0 : (T.drop (p + w.length + (c.length + 1) + 1)).length =
            T.length - (p + w.length + (c.length + 1) + 1) := by simp
        rw [hdropq1] at h0
        omega
      obtain ⟨p', hpe, hge, hple', hct', hrem⟩ :=
        parse_emptyAux_good r hr T.length
          ⟨none, 0, p + w.length + (c.length + 1) + 1, T, true⟩ hdropq1 hq1le hrlen
      dsimp only at hge hple' hct' hrem
      have hpc : parse_comments ⟨none, 0, p + w.length, T, true⟩ = ⟨none, 0, p', T, true⟩ := by
        unfold parse_comments
        rw [hpun]
        unfold parse_empty
        dsimp only
        rw [hstep, hpe]
      unfold run2_body
      dsimp only
      rw [if_neg (by omega : ¬(p = T.length))]
      rw [hcd]
      dsimp only
      rw [hpu]
      dsimp only
      rw [if_neg (by omega : ¬(p + w.length = T.length))]
      rw [hchar]
      rw [if_neg (by decide : ¬('%' = '\n')), if_neg (by decide : ¬('%' = '\\'))]
      rw [hpc]
      exact ih p' p' (body ++ sliceL T ts p') prev hct' hple' (le_refl p')
        (by
          rw [List.append_assoc, sliceL_append_drop T ts p' (by omega)]
          exact hinv)
        (by omega)

/-- A root block parse of a good document returns the whole text unchanged. -/
theorem parse_block_good (T : List Char) (hT : T.getLast? = some '\n')
    (hgood : GoodDoc T) (n : Nat) (hf : T.length < n) :
    parse_block (n + 1) false ⟨none, -1, 0, T, true⟩ =
      .ok T ⟨none, 0, T.length, T, true⟩ := by
  obtain ⟨p₀, hpe, hge, hple, hdisj, hseam⟩ :=
    parse_emptyAux_root T hgood (T.length + 1) ⟨none, -1, 0, T, true⟩ (by simp)
      (by simp) (by omega)
  dsimp only at hge hple hdisj hseam
  have hpe' : parse_empty ⟨none, -1, 0, T, true⟩ = ⟨none, -1, p₀, T, true⟩ := by
    unfold parse_empty
    dsimp only
    rw [hpe]
  have hct : CTail (T.drop p₀) := by
    rcases hdisj with hnil | ⟨c, r, hcn, hr, hcomment⟩
    · exact Or.inl hnil
    · exact Or.inr ⟨[], c, r, by simp, hcn, hr, by simpa using hcomment⟩
  have hcalc : calc_indent_level true ⟨none, -1, p₀, T, true⟩ =
      .ok 0 ⟨none, -1, p₀, T, true⟩ := by
    rcases hdisj with hnil | ⟨c, r, hcn, hr, hcomment⟩
    · apply calc_eof
      show p₀ = T.length
      have h0 : (T.drop p₀).length = T.length - p₀ := by simp
      rw [hnil] at h0
      simp at h0
      omega
    · apply calc_content0 _ '%' (c ++ '\n' :: r) hcomment (by decide)
      show p₀ = 0 ∨ p₀ = T.length ∨ charAtD T (p₀ - 1) = '\n'
      rcases hseam with h | h
      · exact Or.inl h
      · exact Or.inr (Or.inr h)
  show run2_body n (run2 n) (.parseBlock false) ⟨none, -1, 0, T, true⟩ = _
  unfold run2_body
  dsimp only
  rw [hpe', show (!false) = true from rfl, hcalc]
  dsimp only
  rw [if_neg (by
    intro hcon
    exact hcon.2 (by decide))]
  exact blockLoop_good T hT n p₀ 0 [] (-1) hct hple (Nat.zero_le _) (by simp) (by omega)

/-- C3 (amended): for every input whose content lines are comment lines (a
line whose first non-whitespace character is `%`) or blank lines, with the
first content line unindented, translation succeeds, reports nothing, and
returns the input unchanged except for trailing-newline normalization. -/
theorem translate_of_ok (fuel : Nat) (s : St) (body : List Char) (s1 : St)
    (h : parse_block fuel false { s with preamble := true, indent_level := -1 } = .ok body s1) :
    Translator.translate fuel s = .ok (some body, none) s1 := by
  unfold Translator.translate
  rw [h]

/-- C3 (amended): for every input whose content lines are comment lines (a
line whose first non-whitespace character is `%`) or blank lines, with the
first content line unindented, translation succeeds, reports nothing, and
returns the input unchanged except for trailing-newline normalization. -/
theorem C3_passthrough_amended (input : List Char) (fuel : Nat)
    (hgood : GoodDoc (normalizeText input))
    (hfuel : (normalizeText input).length + 1 < fuel) :
    resOutput (translate_source fuel input) = some (normalizeText input) ∧
    resReport (translate_source fuel input) = none := by
  cases fuel with
  | zero => exact absurd hfuel (by omega)
  | succ n =>
    have hpb : parse_block (n + 1) false ⟨none, -1, 0, normalizeText input, true⟩ =
        .ok (normalizeText input) ⟨none, 0, (normalizeText input).length, normalizeText input, true⟩ :=
      parse_block_good (normalizeText input) (normalizeText_getLast input) hgood n (by omega)
    have h0 : ({ Translator.init input with preamble := true, indent_level := (-1 : Int) } : St) = ⟨none, -1, 0, normalizeText input, true⟩ := rfl
    have htr : Translator.translate (n + 1) (Translator.init input) =
        .ok (some (normalizeText input), none) ⟨none, 0, (normalizeText input).length, normalizeText input, true⟩ :=
      translate_of_ok (n + 1) (Translator.init input) (normalizeText input) _ (by rw [h0]; exact hpb)
    constructor
    · show resOutput (Translator.translate (n + 1) (Translator.init input)) = some (normalizeText input)
      rw [htr]
      rfl
    · show resReport (Translator.translate (n + 1) (Translator.init input)) = none
      rw [htr]
      rfl

/-- C3 witness: the one-comment-line document `%a` passes through unchanged
(with its final newline) and nothing is reported. -/
theorem C3_passthrough_witness :
    resOutput (translate_source 6 ['%', 'a', '\n']) = some ['%', 'a', '\n'] ∧
    resReport (translate_source 6 ['%', 'a', '\n']) = none := by
  have he : ('%' :: (['a'] ++ '\n' :: ([] : List Char))) = normalizeText ['%', 'a', '\n'] := by
    decide
  have h := C3_passthrough_amended ['%', 'a', '\n'] 6
    (he ▸ GoodDoc.comment ['a'] [] (by decide) GoodTail.nil) (by decide)
  exact ⟨h.1.trans (by decide), h.2⟩
